import Mathlib

/-!
# Verification of the Antigravity2Api protocol transcoder

This file gives a shallow embedding, in Lean 4, of the core pure logic of the
Antigravity2Api repository (a bidirectional transcoder between a
message/content-block chat protocol and a parts-oriented generative protocol),
and proves or refutes a list of claims about it.

Modelling conventions:
* JavaScript strings are modelled as `List Char` (`Str`).
* JSON values are modelled by the inductive `JVal`; numbers are kept as their
  raw source token (the code under verification never does numeric
  arithmetic on parsed JSON numbers in the fragments we verify).
* JavaScript objects are association lists preserving insertion order;
  assignment to an existing key updates it in place, assignment to a fresh
  key appends (mirroring JS property-order semantics).
* Process-global mutable state (the tool-signature ledger) is threaded as an
  explicit parameter.
* Randomly generated ids are modelled by a deterministic counter; no claim in
  this file depends on the value of a generated id.
-/

abbrev Str := List Char

/-- JS `String.prototype.startsWith`. -/
def jsStartsWith (s pre : Str) : Bool := List.isPrefixOf pre s

/-- First index `i ≥ 0` at which `needle` occurs in `s`; `none` models `-1`. -/
def idxOfAux (s needle : Str) (i : Nat) : Option Nat :=
  match s with
  | [] => if needle.isEmpty then some i else none
  | _ :: rest => if List.isPrefixOf needle s then some i else idxOfAux rest needle (i + 1)

/-- JS `s.indexOf(needle, from)` (result `none` models `-1`). -/
def jsIndexOfFrom (s needle : Str) (start : Nat) : Option Nat :=
  if needle.isEmpty then some (min start s.length)
  else (idxOfAux (s.drop start) needle 0).map (· + start)

/-- JS `s.indexOf(needle)`. -/
def jsIndexOf (s needle : Str) : Option Nat := jsIndexOfFrom s needle 0

/-- JS `s.includes(needle)`. -/
def jsIncludes (s needle : Str) : Bool := (jsIndexOf s needle).isSome

/-- Last index at which `needle` occurs in `s`; `none` models `-1`
(JS `s.lastIndexOf(needle)`). -/
def lastIdxOfAux (s needle : Str) (i : Nat) (best : Option Nat) : Option Nat :=
  match s with
  | [] => if needle.isEmpty then some i else best
  | _ :: rest =>
      let best' := if List.isPrefixOf needle s then some i else best
      lastIdxOfAux rest needle (i + 1) best'

/-- JS `s.lastIndexOf(needle)`. -/
def jsLastIndexOf (s needle : Str) : Option Nat := lastIdxOfAux s needle 0 none

/-- JS `s.slice(a, b)` for `0 ≤ a ≤ b` (the code only uses in-range slices). -/
def jsSlice (s : Str) (a b : Nat) : Str := (s.drop a).take (b - a)

/-- JS `s.slice(a)`. -/
def jsSliceFrom (s : Str) (a : Nat) : Str := s.drop a

/-- ASCII whitespace for the JS `\s` class (the source only meets ASCII here). -/
def isJsWs (c : Char) : Bool :=
  c = ' ' || c = '\t' || c = '\n' || c = '\r' || c = Char.ofNat 11 || c = Char.ofNat 12

/-- JS `s.trim()`. -/
def jsTrim (s : Str) : Str :=
  ((s.dropWhile isJsWs).reverse.dropWhile isJsWs).reverse

/-- JS `s.split(sep)` for a non-empty separator, scanning left to right. -/
def jsSplitAux (s sep : Str) (fuel : Nat) : List Str :=
  match fuel with
  | 0 => [s]
  | fuel' + 1 =>
      match jsIndexOf s sep with
      | none => [s]
      | some i => jsSlice s 0 i :: jsSplitAux (jsSliceFrom s (i + sep.length)) sep fuel'

/-- JS `s.split(sep)` (non-empty `sep`). -/
def jsSplit (s sep : Str) : List Str := jsSplitAux s sep (s.length + 1)

/-- ASCII lower-casing, char-wise (JS `toLowerCase` restricted to ASCII input). -/
def jsToLower (s : Str) : Str := s.map Char.toLower

/-- ASCII upper-casing, char-wise (JS `toUpperCase` restricted to ASCII input). -/
def jsToUpper (s : Str) : Str := s.map Char.toUpper

/-- JS `s.replace(/\s+/g, "")`: drop every whitespace character. -/
def stripAllWs (s : Str) : Str := s.filter (fun c => !isJsWs c)

/-- JSON-like values.  Numbers are kept as their raw token: no verified code
path in this file inspects a parsed number numerically. -/
inductive JVal where
  | str (s : Str)
  | num (raw : Str)
  | bool (b : Bool)
  | null
  | arr (xs : List JVal)
  | obj (kvs : List (Str × JVal))

/-- Fueled structural equality on JSON values.  One unit of fuel is spent per
tree level, so any fuel at least the tree depth computes true equality; at any
fuel the result `true` already implies real equality (soundness is proved
below as `JVal.beqF_sound`). -/
def JVal.beqF : Nat → JVal → JVal → Bool
  | _, .str a, .str b => a = b
  | _, .num a, .num b => a = b
  | _, .bool a, .bool b => a = b
  | _, .null, .null => true
  | fuel + 1, .arr xs, .arr ys =>
      xs.length = ys.length && (List.zip xs ys).all (fun p => JVal.beqF fuel p.1 p.2)
  | fuel + 1, .obj xs, .obj ys =>
      xs.length = ys.length &&
        (List.zip xs ys).all (fun p => p.1.1 = p.2.1 && JVal.beqF fuel p.1.2 p.2.2)
  | _, _, _ => false

/-- JS truthiness on our JSON values (objects and arrays are always truthy;
`num` is falsy exactly on the zero token, the only zero raw appearing here). -/
def jsTruthy : JVal → Bool
  | .str s => !s.isEmpty
  | .num raw => raw ≠ ('0' :: [])
  | .bool b => b
  | .null => false
  | .arr _ => true
  | .obj _ => true

/-- Lookup of a key in a JS object (association list). -/
def getKey (kvs : List (Str × JVal)) (k : Str) : Option JVal :=
  match kvs with
  | [] => none
  | (k', v) :: rest => if k' = k then some v else getKey rest k

/-- JS property assignment: update in place if the key exists, else append. -/
def setKey (kvs : List (Str × JVal)) (k : Str) (v : JVal) : List (Str × JVal) :=
  match kvs with
  | [] => [(k, v)]
  | (k', v') :: rest => if k' = k then (k', v) :: rest else (k', v') :: setKey rest k v

/-- The entry list of an object value (empty for non-objects). -/
def objKvs : JVal → List (Str × JVal)
  | .obj kvs => kvs
  | _ => []

/-- Fueled JS template-string rendering of a value (`${v}`); fuel is spent per
array nesting level. -/
def jsTemplateF : Nat → JVal → Str
  | _, .str s => s
  | _, .num raw => raw
  | _, .bool b => if b then "true".toList else "false".toList
  | _, .null => "null".toList
  | 0, .arr _ => []
  | fuel + 1, .arr xs => List.intercalate [','] (xs.map (jsTemplateF fuel))
  | _, .obj _ => "[object Object]".toList

/-- First-occurrence de-duplication with a seen-set accumulator, modelling the
insertion order of JS `new Set(xs)` (fuel feeds the element comparisons). -/
def jsDedupAuxF (fuel : Nat) (seen : List JVal) : List JVal → List JVal
  | [] => []
  | x :: xs =>
      if seen.any (fun y => JVal.beqF fuel y x) then jsDedupAuxF fuel seen xs
      else x :: jsDedupAuxF fuel (x :: seen) xs

/-- JS `Array.from(new Set(xs))` at a comparison fuel level. -/
def jsDedupF (fuel : Nat) (xs : List JVal) : List JVal := jsDedupAuxF fuel [] xs

/-- Decidable depth bound: `jdepthLe fuel v` holds when the nesting depth of
`v` is at most `fuel`; any such fuel makes the fueled functions below agree
with the functions of the source. -/
def jdepthLe : Nat → JVal → Bool
  | _, .str _ => true
  | _, .num _ => true
  | _, .bool _ => true
  | _, .null => true
  | fuel + 1, .arr xs => xs.all (jdepthLe fuel)
  | fuel + 1, .obj kvs => kvs.all (fun kv => jdepthLe fuel kv.2)
  | 0, _ => false

/-!
## Schema Sanitizer

Embedding of `uppercaseSchemaTypes` and `cleanJsonSchema` (the
options-accepting sanitizer used by `transformClaudeRequestIn` via
`cleanJsonSchema(tool.input_schema, { uppercaseTypes: !isClaudeModel })`).
The boolean parameter `u` models `options.uppercaseTypes !== false`.
All functions are fueled (one unit per tree level) for kernel computability;
any fuel at least the tree depth gives the source behaviour.
-/

/-- The value rewrite `uppercaseSchemaTypes` applies under a `type` key:
string tokens and string elements of token arrays are upper-cased. -/
def upTypeVal : JVal → JVal
  | .str s => JVal.str (jsToUpper s)
  | .arr items =>
      .arr (items.map (fun it =>
        match it with
        | .str s => JVal.str (jsToUpper s)
        | other => other))
  | other => other

/-- One entry of the `uppercaseSchemaTypes` object map; `rec1` is the
recursive call at one less fuel. -/
def upEntry (rec1 : JVal → JVal) (kv : Str × JVal) : Str × JVal :=
  (kv.1,
    if kv.1 = "type".toList then upTypeVal kv.2
    else
      match kv.2 with
      | .obj _ => rec1 kv.2
      | .arr _ => rec1 kv.2
      | other => other)

/-- Fueled `uppercaseSchemaTypes`: upper-case every `type` token tree-wide.
One unit of fuel per tree level. -/
def uppercaseSchemaTypesF : Nat → JVal → JVal
  | 0, v => v
  | fuel + 1, .obj kvs => .obj (kvs.map (upEntry (uppercaseSchemaTypesF fuel)))
  | fuel + 1, .arr xs => .arr (xs.map (fun x => uppercaseSchemaTypesF fuel x))
  | _, v => v

/-- The eight validation keywords lifted into `description` text. -/
def validationFieldNames : List Str :=
  ["minLength", "maxLength", "minimum", "maximum",
   "exclusiveMinimum", "exclusiveMaximum", "minItems", "maxItems"].map String.toList

/-- Keywords stripped outright by the sanitizer. -/
def removeKeyNames : List Str :=
  ["$schema", "additionalProperties", "default", "uniqueItems",
   "propertyNames", "patternProperties", "unevaluatedProperties"].map String.toList

/-- Schema combinators recursed into. -/
def combinatorNames : List Str :=
  ["anyOf", "oneOf", "allOf"].map String.toList

/-- The `validations` list: one entry per present validation keyword, in
`validationFields` order, rendered as in the source template string. -/
def buildValidationsF (fuel : Nat) (kvs : List (Str × JVal)) : List Str :=
  validationFieldNames.filterMap (fun f =>
    match getKey kvs f with
    | some v => some (f ++ ": ".toList ++ jsTemplateF fuel v)
    | none => none)

/-- `inferType` helper: JS-level type name of a value. -/
def inferType : JVal → Str
  | .null => "null".toList
  | .arr _ => "array".toList
  | .str _ => "string".toList
  | .num _ => "number".toList
  | .bool _ => "boolean".toList
  | .obj _ => "object".toList

/-- `isSimpleEnum`: an object holding an `enum` array and nothing but
`enum`/`type` keys. -/
def isSimpleEnum (v : JVal) : Bool :=
  match v with
  | .obj kvs =>
      (match getKey kvs "enum".toList with
       | some (.arr _) => true
       | _ => false)
      && kvs.all (fun kv => kv.1 = "enum".toList || kv.1 = "type".toList)
  | _ => false

/-- `xs.join(", ")`. -/
def joinComma (xs : List Str) : Str := List.intercalate ", ".toList xs

/-- One iteration of the `for (const [key, value] of Object.entries(schema))`
loop of `cleanJsonSchema`, carrying the accumulated `cleaned` object and the
captured `const` value; `clean1` is the recursive call at one less fuel. -/
def cleanEntryStep (clean1 : JVal → JVal) (fuel : Nat) (validations : List Str)
    (acc : List (Str × JVal) × Option JVal) (kv : Str × JVal) :
    List (Str × JVal) × Option JVal :=
  let cleaned := acc.1
  let constV := acc.2
  let key := kv.1
  let value := kv.2
  if key ∈ combinatorNames then
    match value with
    | .arr branches =>
        let cleanedList := branches.map clean1
        if (key = "anyOf".toList || key = "oneOf".toList) && !cleanedList.isEmpty
            && cleanedList.all isSimpleEnum then
          let types := jsDedupF fuel
            ((cleanedList.filterMap (fun s =>
                match s with
                | .obj skvs => getKey skvs "type".toList
                | _ => none)).filter jsTruthy)
          if types.length ≤ 1 then
            let mergedEnum := cleanedList.flatMap (fun s =>
              match s with
              | .obj skvs =>
                  match getKey skvs "enum".toList with
                  | some (.arr es) => es
                  | _ => []
              | _ => [])
            let cleaned := setKey cleaned "enum".toList (.arr (jsDedupF fuel mergedEnum))
            let cleaned :=
              match types with
              | t :: _ => setKey cleaned "type".toList t
              | [] => cleaned
            (cleaned, constV)
          else
            (setKey cleaned key (.arr cleanedList), constV)
        else
          (setKey cleaned key (.arr cleanedList), constV)
    | _ => (setKey cleaned key value, constV)
  else if key = "const".toList then
    (cleaned, some value)
  else if key ∈ removeKeyNames || key ∈ validationFieldNames then
    (cleaned, constV)
  else if key = "properties".toList &&
      (match value with | .obj _ => true | _ => false) then
    match value with
    | .obj props =>
        (setKey cleaned key (.obj (props.map (fun p =>
          (p.1,
            match p.2 with
            | .obj _ => clean1 p.2
            | .arr _ => clean1 p.2
            | _ => p.2)))), constV)
    | _ => (cleaned, constV)
  else if key = "type".toList && (match value with | .arr _ => true | _ => false) then
    match value with
    | .arr vs =>
        let filtered := vs.filter (fun v => !JVal.beqF fuel v (.str "null".toList))
        let fallback :=
          match vs with
          | v0 :: _ => if jsTruthy v0 then v0 else JVal.str "string".toList
          | [] => JVal.str "string".toList
        let chosen :=
          match filtered with
          | f :: _ => if jsTruthy f then f else fallback
          | [] => fallback
        let cleaned := setKey cleaned "type".toList chosen
        let cleaned :=
          if vs.any (fun v => JVal.beqF fuel v (.str "null".toList)) then
            setKey cleaned "nullable".toList (.bool true)
          else cleaned
        (cleaned, constV)
    | _ => (cleaned, constV)
  else if key = "description".toList && validations ≠ [] then
    (setKey cleaned key
      (.str (jsTemplateF fuel value ++ " (".toList ++ joinComma validations ++ ")".toList)),
     constV)
  else
    match value with
    | .obj _ => (setKey cleaned key (clean1 value), constV)
    | .arr _ => (setKey cleaned key (clean1 value), constV)
    | _ => (setKey cleaned key value, constV)

/-- Post-loop handling of a captured `const` value: fold it into `enum` and
backfill `type` from the value when absent or falsy. -/
def constPost (cleaned : List (Str × JVal)) : Option JVal → List (Str × JVal)
  | none => cleaned
  | some cv =>
      let es :=
        match getKey cleaned "enum".toList with
        | some (.arr es) => es ++ [cv]
        | _ => [cv]
      let cleaned := setKey cleaned "enum".toList (.arr es)
      match getKey cleaned "type".toList with
      | some t =>
          if jsTruthy t then cleaned
          else setKey cleaned "type".toList (.str (inferType cv))
      | none => setKey cleaned "type".toList (.str (inferType cv))

/-- Post-loop `enum` normalisation: de-duplicate arrays of more than one
element and split multi-character string enums into character arrays. -/
def enumDedupPost (fuel : Nat) (cleaned : List (Str × JVal)) : List (Str × JVal) :=
  match getKey cleaned "enum".toList with
  | some (.arr es) =>
      if es.length > 1 then setKey cleaned "enum".toList (.arr (jsDedupF fuel es)) else cleaned
  | some (.str s) =>
      if s.length > 1 then
        setKey cleaned "enum".toList (.arr (jsDedupF fuel (s.map (fun c => JVal.str [c]))))
      else cleaned
  | _ => cleaned

/-- Post-loop description fallback: attach the collected validation text when
no (truthy) description survived the loop. -/
def descPost (validations : List Str) (cleaned : List (Str × JVal)) : List (Str × JVal) :=
  if validations ≠ [] then
    match getKey cleaned "description".toList with
    | some d =>
        if jsTruthy d then cleaned
        else setKey cleaned "description".toList
               (.str ("Validation: ".toList ++ joinComma validations))
    | none => setKey cleaned "description".toList
               (.str ("Validation: ".toList ++ joinComma validations))
  else cleaned

/-- `cleanJsonSchema(schema, options)` with `u = (options.uppercaseTypes !== false)`:
non-objects pass through, arrays map, objects run the keyword-cleaning loop
followed by const/enum/validation post-processing and optional type
upper-casing.  Fueled (one unit per tree level); the trailing
`uppercaseSchemaTypes` call receives `fuel + 2`, which covers the depth of the
cleaned tree whenever `fuel + 1` covers the input (cleaning raises the depth
by at most one, via the `const`-to-`enum` wrap). -/
def cleanJsonSchemaF : Nat → Bool → JVal → JVal
  | 0, _, v => v
  | fuel + 1, u, .arr xs => .arr (xs.map (fun x => cleanJsonSchemaF fuel u x))
  | fuel + 1, u, .obj kvs =>
      let validations := buildValidationsF fuel kvs
      let res := kvs.foldl
        (cleanEntryStep (fun v => cleanJsonSchemaF fuel u v) fuel validations) ([], none)
      let cleaned := descPost validations (enumDedupPost fuel (constPost res.1 res.2))
      if u then uppercaseSchemaTypesF (fuel + 2) (.obj cleaned) else .obj cleaned
  | _, _, v => v

/-- Whether a value sitting under a `type` key is fixed by the upper-casing
pass: string tokens (and string elements of token arrays) already equal their
upper-cased form. -/
def typeTokenUpper : JVal → Bool
  | .str s => jsToUpper s = s
  | .arr items => items.all (fun it =>
      match it with
      | .str s => jsToUpper s = s
      | _ => true)
  | _ => true

/-- Whether first-occurrence de-duplication leaves the list unchanged, given
the already-seen accumulator. -/
def jsDedupNoopAux (fuel : Nat) (seen : List JVal) : List JVal → Bool
  | [] => true
  | x :: xs =>
      !(seen.any (fun y => JVal.beqF fuel y x)) && jsDedupNoopAux fuel (x :: seen) xs

/-- Whether `Array.from(new Set(xs))` returns `xs` unchanged. -/
def jsDedupNoop (fuel : Nat) (xs : List JVal) : Bool := jsDedupNoopAux fuel [] xs

/-- Fixed-point condition for one object entry of the sanitizer loop: the key
is none of the removed / lifted / `const` keywords, enum-flattening does not
fire, `type` is not a union array (and is cased for the `u` mode, also as a
property name inside `properties`), `enum` survives de-duplication, and
nested schemas are themselves sanitized (`san` is the predicate one fuel
level down). -/
def sanEntryOk (u : Bool) (fuel : Nat) (san : JVal → Bool) (kv : Str × JVal) : Bool :=
  let k := kv.1
  let v := kv.2
  if k ∈ combinatorNames then
    match v with
    | .arr branches =>
        branches.all san &&
        !((k = "anyOf".toList || k = "oneOf".toList) && !branches.isEmpty &&
          branches.all isSimpleEnum)
    | .obj _ => san v
    | _ => true
  else if k = "const".toList then false
  else if k ∈ removeKeyNames || k ∈ validationFieldNames then false
  else if k = "properties".toList && (match v with | .obj _ => true | _ => false) then
    match v with
    | .obj props => props.all (fun p =>
        (match p.2 with
         | .obj _ => san p.2
         | .arr _ => san p.2
         | _ => true) &&
        (!u || (if p.1 = "type".toList then typeTokenUpper p.2 else true)))
    | _ => true
  else if k = "type".toList then
    (match v with
     | .arr _ => false
     | .obj _ => san v
     | _ => true) && (!u || typeTokenUpper v)
  else if k = "enum".toList then
    (match v with
     | .arr es => san v && jsDedupNoop fuel es
     | .str s => decide (s.length ≤ 1)
     | .obj _ => san v
     | _ => true)
  else
    match v with
    | .obj _ => san v
    | .arr _ => san v
    | _ => true

/-- Sanitized-tree predicate: the fixed points of `cleanJsonSchemaF` proved
below.  One fuel unit per tree level, like the sanitizer itself. -/
def sanitizedF (u : Bool) : Nat → JVal → Bool
  | _, .str _ => true
  | _, .num _ => true
  | _, .bool _ => true
  | _, .null => true
  | fuel + 1, .arr xs => xs.all (sanitizedF u fuel)
  | fuel + 1, .obj kvs =>
      decide ((kvs.map Prod.fst).Nodup) &&
        kvs.all (sanEntryOk u fuel (sanitizedF u fuel))
  | 0, _ => false

/-!
## JSON serialisation (JSON.stringify) and the MCP XML bridge builders
-/

/-- JSON string-character escaping as in `JSON.stringify`. -/
def escapeJsonChar (c : Char) : Str :=
  if c = '"' then ['\\', '"']
  else if c = '\\' then ['\\', '\\']
  else if c = '\n' then ['\\', 'n']
  else if c = '\r' then ['\\', 'r']
  else if c = '\t' then ['\\', 't']
  else if c = Char.ofNat 8 then ['\\', 'b']
  else if c = Char.ofNat 12 then ['\\', 'f']
  else if c.toNat < 32 then
    let hexDigit := fun (n : Nat) => if n < 10 then Char.ofNat (48 + n) else Char.ofNat (87 + n)
    ['\\', 'u', '0', '0', hexDigit (c.toNat / 16), hexDigit (c.toNat % 16)]
  else [c]

/-- A JSON string literal for `s`. -/
def jsonQuote (s : Str) : Str := '"' :: (s.flatMap escapeJsonChar ++ ['"'])

/-- Fueled `JSON.stringify` (fuel per nesting level; any fuel at least the
depth gives the JS result). -/
def jsonStringifyF : Nat → JVal → Str
  | _, .str s => jsonQuote s
  | _, .num raw => raw
  | _, .bool b => if b then "true".toList else "false".toList
  | _, .null => "null".toList
  | 0, .arr _ => []
  | 0, .obj _ => []
  | fuel + 1, .arr xs => '[' :: (List.intercalate [','] (xs.map (jsonStringifyF fuel)) ++ [']'])
  | fuel + 1, .obj kvs =>
      '{' :: (List.intercalate [',']
        (kvs.map (fun kv => jsonQuote kv.1 ++ [':'] ++ jsonStringifyF fuel kv.2)) ++ ['}'])

/-- `safeJsonStringify(value, maxLen)`: stringify then truncate with an
ellipsis beyond `maxLen` (the `catch` branch of the source is unreachable in
this model, where stringify is total). -/
def safeJsonStringifyF (fuel : Nat) (v : JVal) (maxLen : Nat) : Str :=
  let text := jsonStringifyF fuel v
  if text.length > maxLen then text.take maxLen ++ "...".toList else text

/-- `isMcpToolName(name)`: the reserved bridge prefix test. -/
def isMcpToolName (name : Str) : Bool := jsStartsWith name "mcp__".toList

/-- `buildMcpToolCallXml(name, input)`: bridge markup for a tool call. -/
def buildMcpToolCallXmlF (fuel : Nat) (name : Str) (input : JVal) : Str :=
  let payload :=
    let p := safeJsonStringifyF fuel input 20000
    if p.isEmpty then "\x7b\x7d".toList else p
  '<' :: name ++ ['>'] ++ payload ++ ['<', '/'] ++ name ++ ['>']

/-- `buildMcpToolResultXml(toolName, toolUseId, resultText)` (the three
parameters the bridge module declares; extra call-site arguments are ignored
by JS and hence absent here). -/
def buildMcpToolResultXmlF (fuel : Nat) (toolName : Str) (toolUseId : Str) (resultText : Str) : Str :=
  let payload : JVal := .obj
    [("name".toList, .str toolName),
     ("tool_use_id".toList, .str toolUseId),
     ("result".toList, .str resultText)]
  let body :=
    let p := safeJsonStringifyF (fuel + 2) payload 40000
    if p.isEmpty then "\x7b\x7d".toList else p
  "<mcp_tool_result>".toList ++ body ++ "</mcp_tool_result>".toList

/-!
## Request Transcoder (transformClaudeRequestIn, message processing)

Embedding of the `contents` construction of `transformClaudeRequestIn`
(src/transform/claude/ClaudeRequestIn.js): per-message content-item loop,
signature forwarding windows, the trailing signature back-fill, and the
user-role `functionResponse` reorder.  The process-global
tool-signature ledger is threaded as an association list.
-/

/-- A backend (v1internal) `functionCall` payload. -/
structure FunctionCall where
  name : Str
  args : JVal
  id : Str

/-- A backend `functionResponse` payload (`response` object flattened to its
three fields as built by the source). -/
structure FunctionResponse where
  name : Str
  result : Str
  isError : Bool
  content : JVal
  id : Str

/-- A backend `inlineData` payload. -/
structure InlineData where
  mimeType : Str
  data : Str

/-- A backend content part; absent JS fields are `none`/`false`. -/
structure GPart where
  text : Option Str := none
  thought : Bool := false
  thoughtSignature : Option Str := none
  functionCall : Option FunctionCall := none
  functionResponse : Option FunctionResponse := none
  inlineData : Option InlineData := none

/-- A backend content message. -/
structure GMsg where
  role : Str
  parts : List GPart

/-- A Claude content item (`msg.content[]` member).  String-typed fields that
the source coerces with `typeof x === "string" ? x : ""` are plain `Str`,
with `[]` as the absent value. -/
inductive CItem where
  | text (text : Str)
  | thinking (thinking : Str) (signature : Str)
  | redactedThinking (data : Str)
  | image (isBase64 : Bool) (mediaType : Str) (data : Str)
  | toolUse (id : Str) (name : Str) (input : JVal) (signature : Str)
  | toolResult (toolUseId : Str) (content : JVal) (isError : Bool)
  | other

/-- Claude message content: a string or an item array (any other shape adds
no parts in the source and is folded into an empty item list). -/
inductive CContent where
  | str (s : Str)
  | items (xs : List CItem)

/-- A Claude message. -/
structure CMsg where
  role : Str
  content : CContent

/-- `estimateBase64BytesLength` (Nat subtraction saturates like the source's
`Math.max(0, ...)`). -/
def estimateBase64BytesLength (b64 : Str) : Nat :=
  let s := jsTrim b64
  if s.isEmpty then 0
  else
    let padding := if List.isSuffixOf "==".toList s then 2
      else if List.isSuffixOf "=".toList s then 1 else 0
    s.length * 3 / 4 - padding

/-- String-map lookup (JS `Map.get`, `undefined` as `none`). -/
def strLookup : List (Str × Str) → Str → Option Str
  | [], _ => none
  | (k, v) :: rest, k' => if k = k' then some v else strLookup rest k'

/-- String-map insert (JS `Map.set`: update in place or append). -/
def strInsert : List (Str × Str) → Str → Str → List (Str × Str)
  | [], k, v => [(k, v)]
  | (k', v') :: rest, k, v =>
      if k' = k then (k', v) :: rest else (k', v') :: strInsert rest k v

/-- String-map delete (JS `Map.delete`). -/
def strDelete (m : List (Str × Str)) (k : Str) : List (Str × Str) :=
  m.filter (fun kv => kv.1 ≠ k)

/-- One block of the `extractInlineDataPartsFromClaudeToolResultContent`
loop, carrying `(textSegments, sanitizedContent, inlineParts)`. -/
def extractInlineStep (fuel : Nat) (acc : List Str × List JVal × List GPart)
    (block : JVal) : List Str × List JVal × List GPart :=
  let fallback :=
    let t := match block with
      | .str s => s
      | _ => jsonStringifyF fuel block
    (acc.1 ++ [t], acc.2.1 ++ [block], acc.2.2)
  match block with
  | .obj bkvs =>
      let btype := match getKey bkvs "type".toList with
        | some (.str t) => t
        | _ => []
      if btype = "text".toList then
        let t := match getKey bkvs "text".toList with
          | some (.str s) => s
          | _ => []
        ((if t.isEmpty then acc.1 else acc.1 ++ [t]), acc.2.1 ++ [block], acc.2.2)
      else if btype = "image".toList then
        match getKey bkvs "source".toList with
        | some (.obj skvs) =>
            let dataOpt := match getKey skvs "data".toList with
              | some (.str d) => if d.isEmpty then none else some d
              | _ => none
            match dataOpt with
            | some d =>
                let mt := match getKey skvs "media_type".toList with
                  | some mv =>
                      if jsTruthy mv then jsTemplateF fuel mv
                      else
                        match getKey skvs "mediaType".toList with
                        | some mv2 => if jsTruthy mv2 then jsTemplateF fuel mv2
                                      else "image/png".toList
                        | none => "image/png".toList
                  | none =>
                      match getKey skvs "mediaType".toList with
                      | some mv2 => if jsTruthy mv2 then jsTemplateF fuel mv2
                                    else "image/png".toList
                      | none => "image/png".toList
                let bytesLen := estimateBase64BytesLength d
                let placeholder := "[inline image omitted from JSON (".toList ++ mt
                  ++ ", ~".toList ++ (Nat.repr bytesLen).toList ++ " bytes)]".toList
                let sanBlock := JVal.obj (setKey bkvs "source".toList
                  (.obj (setKey skvs "data".toList (.str placeholder))))
                (acc.1 ++ [placeholder], acc.2.1 ++ [sanBlock],
                 acc.2.2 ++ [{ inlineData := some { mimeType := mt, data := d } }])
            | none => fallback
        | _ => fallback
      else fallback
  | _ => fallback

/-- `extractInlineDataPartsFromClaudeToolResultContent`: returns
`(contentText, sanitizedContent, inlineParts)`. -/
def extractInlineData (fuel : Nat) (rawContent : JVal) : Str × JVal × List GPart :=
  match rawContent with
  | .arr blocks =>
      let res := blocks.foldl (extractInlineStep fuel) ([], [], [])
      (List.intercalate ['\n'] res.1,
       (if res.2.2.isEmpty then rawContent else .arr res.2.1),
       res.2.2)
  | .str s => (s, rawContent, [])
  | .obj _ => (jsonStringifyF fuel rawContent, rawContent, [])
  | v => ((if jsTruthy v then jsTemplateF fuel v else []), rawContent, [])

/-- Per-message mutable state of the content-item loop of
`transformClaudeRequestIn`, together with the threaded cross-message maps. -/
structure MsgSt where
  parts : List GPart
  saw : Bool
  prevWasToolResult : Bool
  pendingSig : Option Str
  toolIdToName : List (Str × Str)
  lastUserTask : Option Str
  store : List (Str × Str)

/-- One iteration of the content-item loop (`for (const item of msg.content)`).
`fwd` is `shouldForwardThoughtSignatures`, `msgHasFC` is
`messageHasFunctionCallToolUse`. -/
def processItem (fuel : Nat) (mcpXml : Bool) (fwd : Bool) (role : Str) (msgHasFC : Bool)
    (st : MsgSt) (item : CItem) : MsgSt :=
  match item with
  | .text t =>
      if t.isEmpty || t = "(no content)".toList then st
      else if role = "user".toList && st.prevWasToolResult &&
          (match st.lastUserTask with
           | some l => !l.isEmpty && stripAllWs t = l
           | none => false) then
        { st with prevWasToolResult := false }
      else
        let attach := st.pendingSig.isSome && fwd && role = "model".toList && !msgHasFC
        let part : GPart := { text := some t, thoughtSignature := if attach then st.pendingSig else none }
        { st with parts := st.parts ++ [part],
                  pendingSig := if attach then none else st.pendingSig,
                  saw := true, prevWasToolResult := false,
                  lastUserTask := if role = "user".toList then some (stripAllWs t) else st.lastUserTask }
  | .thinking tk sig =>
      if tk.isEmpty then
        if !sig.isEmpty && fwd then { st with pendingSig := some sig } else st
      else if st.saw then st
      else
        let st := if !sig.isEmpty && fwd then { st with pendingSig := some sig } else st
        if fwd then
          { st with parts := st.parts ++ [{ text := some tk, thought := true }],
                    prevWasToolResult := false }
        else
          { st with parts := st.parts ++ [{ text := some tk }],
                    saw := true, prevWasToolResult := false }
  | .redactedThinking d =>
      if d.isEmpty then st
      else if st.saw then st
      else { st with parts := st.parts ++ [{ text := some d }],
                     saw := true, prevWasToolResult := false }
  | .image isB64 mt d =>
      let inl : InlineData :=
        { mimeType := (if mt.isEmpty then "image/png".toList else mt), data := d }
      let st :=
        if isB64 then
          { st with parts := st.parts ++ [{ inlineData := some inl }], saw := true }
        else st
      { st with prevWasToolResult := false }
  | .toolUse id name input sig =>
      if mcpXml && isMcpToolName name then
        let st := if !id.isEmpty && !name.isEmpty then
            { st with toolIdToName := strInsert st.toolIdToName id name } else st
        let pendingSigL := if fwd then st.pendingSig else none
        let itemSig : Option Str := if sig.isEmpty then none else some sig
        let st := if !id.isEmpty && (itemSig.isSome || pendingSigL.isSome) then
            { st with store := strDelete st.store id } else st
        let st := if pendingSigL.isSome then { st with pendingSig := none } else st
        let partSig :=
          if itemSig.isSome && fwd then itemSig
          else if pendingSigL.isSome && fwd then pendingSigL
          else none
        let part : GPart :=
          { text := some (buildMcpToolCallXmlF fuel name (if jsTruthy input then input else .obj [])),
            thoughtSignature := partSig }
        { st with parts := st.parts ++ [part], saw := true, prevWasToolResult := false }
      else
        let st := if !id.isEmpty && !name.isEmpty then
            { st with toolIdToName := strInsert st.toolIdToName id name } else st
        let st := if !sig.isEmpty then { st with store := strDelete st.store id } else st
        let pendingSigL := if fwd then st.pendingSig else none
        let sigChosen : Option Str :=
          if !sig.isEmpty then some sig
          else if pendingSigL.isSome then pendingSigL
          else if id.isEmpty then none else strLookup st.store id
        let st := if sig.isEmpty && pendingSigL.isSome && !id.isEmpty then
            { st with store := strDelete st.store id } else st
        let st := if pendingSigL.isSome then { st with pendingSig := none } else st
        let fcSig := if sigChosen.isSome && fwd then sigChosen else none
        let part : GPart :=
          { functionCall := some { name := name,
                                   args := if jsTruthy input then input else .obj [],
                                   id := id },
            thoughtSignature := fcSig }
        { st with parts := st.parts ++ [part], saw := true, prevWasToolResult := false }
  | .toolResult tuid content isErr =>
      let funcName := (strLookup st.toolIdToName tuid).getD tuid
      let ext := extractInlineData fuel content
      let newParts : List GPart :=
        if mcpXml && isMcpToolName funcName then
          [{ text := some (buildMcpToolResultXmlF fuel funcName tuid ext.1) }] ++ ext.2.2
        else if mcpXml && funcName = tuid then
          [{ text := some (buildMcpToolResultXmlF fuel [] tuid ext.1) }] ++ ext.2.2
        else
          [{ functionResponse := some { name := funcName, result := ext.1, isError := isErr,
                                        content := ext.2.1, id := tuid } }] ++ ext.2.2
      { st with parts := st.parts ++ newParts, saw := true, prevWasToolResult := true }
  | .other => st

/-- The end-of-message back-fill of a pending signature-only thinking block:
scan the built parts from the end for the first eligible carrier (a
`functionCall` part, or a non-empty non-thought text part, with no signature
yet); parts already carrying a signature are skipped.  Returns the updated
list and whether a carrier was found. -/
def retroFillSig (sig : Str) : List GPart → List GPart × Bool
  | [] => ([], false)
  | p :: rest =>
      let r := retroFillSig sig rest
      if r.2 then (p :: r.1, true)
      else if p.thoughtSignature.isSome then (p :: r.1, false)
      else if p.functionCall.isSome then ({ p with thoughtSignature := some sig } :: r.1, true)
      else
        match p.text with
        | some t =>
            if !p.thought && !t.isEmpty then ({ p with thoughtSignature := some sig } :: r.1, true)
            else (p :: r.1, false)
        | none => (p :: r.1, false)

/-- The user-role reorder: `functionResponse` parts (each with its trailing
run of `inlineData` attachments) move before all other parts. The source's
index loop with an inner `while` absorbing consecutive `inlineData` parts is
rendered as a single pass with an in-run flag. -/
def reorderUserPartsAux : List GPart → List GPart → List GPart → Bool → List GPart
  | [], reordered, deferred, _ => reordered ++ deferred
  | p :: rest, reordered, deferred, inRun =>
      if p.functionResponse.isSome then
        reorderUserPartsAux rest (reordered ++ [p]) deferred true
      else if inRun && p.inlineData.isSome then
        reorderUserPartsAux rest (reordered ++ [p]) deferred true
      else
        reorderUserPartsAux rest reordered (deferred ++ [p]) false

/-- The user-role reorder, applied only when some `functionResponse` exists. -/
def reorderUserParts (parts : List GPart) : List GPart :=
  if parts.any (fun p => p.functionResponse.isSome) then
    reorderUserPartsAux parts [] [] false
  else parts

/-- Cross-message state of the message loop. -/
structure XSt where
  toolIdToName : List (Str × Str)
  lastUserTask : Option Str
  store : List (Str × Str)

/-- Whether the message contains a native (non-bridged) `tool_use`, computed
up front as `messageHasFunctionCallToolUse`. -/
def hasFunctionCallToolUse (mcpXml : Bool) (role : Str) (c : CContent) : Bool :=
  role = "model".toList &&
    (match c with
     | .items items => items.any (fun it =>
         match it with
         | .toolUse _ name _ _ => !(mcpXml && isMcpToolName name)
         | _ => false)
     | _ => false)

/-- Processing of one Claude message into at most one backend content message
(messages whose part list ends up empty are dropped). -/
def processMessage (fuel : Nat) (mcpXml : Bool) (fwdDefault : Bool) (segStart : Option Nat)
    (msgIndex : Nat) (xst : XSt) (msg : CMsg) : XSt × Option GMsg :=
  let fwd := fwdDefault && (match segStart with | none => true | some s => msgIndex ≥ s)
  let role := if msg.role = "assistant".toList then "model".toList else msg.role
  match msg.content with
  | .items items =>
      let msgHasFC := hasFunctionCallToolUse mcpXml role (.items items)
      let st0 : MsgSt :=
        { parts := [], saw := false, prevWasToolResult := false, pendingSig := none,
          toolIdToName := xst.toolIdToName, lastUserTask := xst.lastUserTask, store := xst.store }
      let st := items.foldl (processItem fuel mcpXml fwd role msgHasFC) st0
      let parts :=
        match st.pendingSig with
        | some sig => if fwd && role = "model".toList then (retroFillSig sig st.parts).1 else st.parts
        | none => st.parts
      let parts := if role = "user".toList && !parts.isEmpty then reorderUserParts parts else parts
      let out := if parts.isEmpty then none else some { role := role, parts := parts }
      ({ toolIdToName := st.toolIdToName, lastUserTask := st.lastUserTask, store := st.store }, out)
  | .str s =>
      if s.isEmpty then (xst, none)
      else
        let xst' := if role = "user".toList then { xst with lastUserTask := some (stripAllWs s) } else xst
        (xst', some { role := role, parts := [{ text := some s }] })

/-- The message loop of `transformClaudeRequestIn`, producing the backend
`contents` array. -/
def transformMessagesAux (fuel : Nat) (mcpXml : Bool) (fwdDefault : Bool) (segStart : Option Nat) :
    Nat → XSt → List CMsg → List GMsg
  | _, _, [] => []
  | i, xst, m :: rest =>
      let r := processMessage fuel mcpXml fwdDefault segStart i xst m
      match r.2 with
      | some g => g :: transformMessagesAux fuel mcpXml fwdDefault segStart (i + 1) r.1 rest
      | none => transformMessagesAux fuel mcpXml fwdDefault segStart (i + 1) r.1 rest

/-- `contents` built by `transformClaudeRequestIn(claudeReq, projectId, options)`
from the message array, with `fwdDefault = (options.forwardThoughtSignatures !== false)`,
`segStart` the integer `options.signatureSegmentStartIndex` when given, and
`store` the process-global tool-signature ledger. -/
def transformContents (fuel : Nat) (mcpXml : Bool) (fwdDefault : Bool) (segStart : Option Nat)
    (store : List (Str × Str)) (msgs : List CMsg) : List GMsg :=
  transformMessagesAux fuel mcpXml fwdDefault segStart 0
    { toolIdToName := [], lastUserTask := none, store := store } msgs

/-- The `signatureSegmentStartIndex` computed by the bridge-switch retry's
`buildBody` (`Array.isArray(requestData?.messages) ? requestData.messages.length : 0`;
the message array always exists in this model). -/
def retrySignatureSegmentStartIndex (msgs : List CMsg) : Nat := msgs.length

/-!
## Model-Switch fold-back (claudeApiMcp.js)
-/

/-- `extractTextFromClaudeContent`: string content verbatim, else the
concatenation of the `text` blocks. -/
def extractTextFromClaudeContent (c : CContent) : Str :=
  match c with
  | .str s => s
  | .items xs => (xs.filterMap (fun b =>
      match b with
      | .text t => some t
      | _ => none)).flatten

/-- `extractLastAssistantText(messages, startIndex, endIndexExclusive)`: the
trimmed text of the last assistant message in the index window whose trimmed
text is non-empty, else the empty string. -/
def extractLastAssistantText (msgs : List CMsg) (startIndex endExclusive : Nat) : Str :=
  let window := (msgs.take (min msgs.length endExclusive)).drop startIndex
  match window.reverse.find? (fun m =>
      m.role = "assistant".toList && !(jsTrim (extractTextFromClaudeContent m.content)).isEmpty) with
  | some m => jsTrim (extractTextFromClaudeContent m.content)
  | none => []

/-- A fold segment (`{start, end, summaryText}`; `end` is `fin` here since
`end` is reserved in Lean). -/
structure Seg where
  start : Int
  fin : Int
  summaryText : Str

/-- Stable ascending insertion on `start`, modelling the stable JS
`sort((a, b) => a.start - b.start)`. -/
def insertSeg (x : Seg) : List Seg → List Seg
  | [] => [x]
  | y :: ys => if x.start < y.start then x :: y :: ys else y :: insertSeg x ys

/-- Stable sort of segments by `start`. -/
def sortSegs : List Seg → List Seg
  | [] => []
  | x :: xs => insertSeg x (sortSegs xs)

/-- The synthetic user-role summary message inserted by `foldSegments`. -/
def summaryMessage (summary : Str) : CMsg :=
  { role := "user".toList, content := .items [.text ("MCP result:\n".toList ++ summary)] }

/-- The per-segment loop of `foldSegments`, carrying the copy cursor `i`. -/
def foldSegmentsAux (msgs : List CMsg) : List Seg → Nat → List CMsg
  | [], i => msgs.drop i
  | seg :: rest, i =>
      let upto := min msgs.length seg.start.toNat
      let copied := (msgs.take upto).drop i
      let summary := jsTrim seg.summaryText
      let summaryMsgs : List CMsg := if summary.isEmpty then [] else [summaryMessage summary]
      let i' := max (max i upto) seg.fin.toNat
      copied ++ summaryMsgs ++ foldSegmentsAux msgs rest i'

/-- `foldSegments(messages, segments)`: copy messages outside the (validated,
sorted) segments; each segment is replaced by one synthetic summary message
when its trimmed summary text is non-empty, and by nothing otherwise. -/
def foldSegments (msgs : List CMsg) (segments : List Seg) : List CMsg :=
  if msgs.isEmpty then msgs
  else if segments.isEmpty then msgs
  else
    let sorted := sortSegs (segments.filter (fun s => s.start ≥ 0 && s.fin > s.start))
    if sorted.isEmpty then msgs else foldSegmentsAux msgs sorted 0

/-- The fold-back step of `prepareMcpContext` when the target family is the
primary (claude) one, an MCP segment is open at `mcpStartIndex`, and no
previously folded segments exist: `end = max(0, messages.length - 1)` (keep
the last user message), `start = max(0, mcpStartIndex)`; the segment is
recorded and folded only when `end > start`. -/
def foldBackMessages (msgs : List CMsg) (mcpStartIndex : Nat) : List CMsg :=
  let fin := msgs.length - 1
  let start := mcpStartIndex
  if fin > start then
    foldSegments msgs
      [{ start := (start : Int), fin := (fin : Int),
         summaryText := extractLastAssistantText msgs start fin }]
  else msgs

/-!
## Messages-handler request gate (claudeApi.js, handleMessages)
-/

/-- Outcome of the pre-backend portion of `ClaudeApi.handleMessages`:
`rejectEmpty` is the immediate
`{status: 400, body: {error: {message: "Empty request body"}}}` return taken
before any upstream call, and `callBackend` means control reaches
`upstream.callV1Internal`. -/
inductive HandlerDecision where
  | rejectEmpty
  | callBackend

/-- Decidable equality for handler decisions. -/
instance : DecidableEq HandlerDecision := fun a b => by
  cases a <;> cases b <;> first | exact isTrue rfl | exact isFalse (by intro h; cases h)

/-- The only request validation in `handleMessages`: `if (!requestData)`
(JS falsiness of the parsed body).  Every truthy body, whatever fields it
has, proceeds to the backend call. -/
def handleMessagesGate (requestData : Option JVal) : HandlerDecision :=
  match requestData with
  | none => .rejectEmpty
  | some v => if jsTruthy v then .callBackend else .rejectEmpty

/-- A request body missing a required field of the messages API
(`model` or `messages`), per the protocol the handler imitates. -/
def missingRequiredFields (r : JVal) : Bool :=
  match r with
  | .obj kvs => (getKey kvs "model".toList).isNone || (getKey kvs "messages".toList).isNone
  | _ => true

/-!
## Response Transcoder (claudeTransformer: StreamingState / PartProcessor /
NonStreamingProcessor)

The streaming machine's SSE output is modelled as a list of structured
events; `makeToolUseId`'s random id is modelled by a deterministic counter
(no property below depends on generated id values).
-/

/-- The `usageMetadata` counters (absent JS fields are `0`, matching the
source's `|| 0` and the truthiness test on `totalTokenCount`). -/
structure UsageMeta where
  prompt : Nat := 0
  candidates : Nat := 0
  thoughts : Nat := 0
  total : Nat := 0

/-- `toClaudeUsage`: prefer total minus prompt when a consistent total is
present, else candidates plus thoughts; returns
`(input_tokens, output_tokens)`. -/
def toClaudeUsage (m : UsageMeta) : Nat × Nat :=
  if m.total ≠ 0 && decide (m.total ≥ m.prompt) then (m.prompt, m.total - m.prompt)
  else (m.prompt, m.candidates + m.thoughts)

/-- A `content_block` payload of a `content_block_start` event.  The
`thinking` start blocks carry their `signature` field (the source's
`startBlock` adds `signature: ""` when absent). -/
inductive CBlock where
  | thinkingB (thinking : Str) (signature : Str)
  | textB (text : Str)
  | toolUseB (id : Str) (name : Str) (input : JVal) (signature : Option Str)

/-- A `content_block_delta` payload. -/
inductive CDelta where
  | thinkingDelta (s : Str)
  | signatureDelta (s : Str)
  | textDelta (s : Str)
  | inputJsonDelta (s : Str)

/-- An outbound SSE event of the streaming state machine. -/
inductive SEvent where
  | blockStart (index : Nat) (block : CBlock)
  | blockDelta (index : Nat) (delta : CDelta)
  | blockStop (index : Nat)
  | messageDelta (stopReason : Str) (usage : Nat × Nat)
  | messageStop

/-- The open-block discriminator (`BLOCK_NONE/TEXT/THINKING/FUNCTION`). -/
inductive BlockTy where
  | none
  | text
  | thinking
  | function
deriving DecidableEq

/-- `StreamingState`: the mutable fields of the streaming reconstruction
machine (the SSE encoder/controller pair is replaced by the returned event
lists). -/
structure SState where
  blockType : BlockTy := .none
  blockIndex : Nat := 0
  messageStopSent : Bool := false
  usedTool : Bool := false
  hasThinking : Bool := false
  pendingSig : Option Str := none
  trailingSignature : Option Str := none
  genCounter : Nat := 0

/-- `endBlock`: close the open block, flushing a pending thinking signature
as a trailing `signature_delta` first. -/
def endBlock (st : SState) : SState × List SEvent :=
  match st.blockType with
  | .none => (st, [])
  | bt =>
      let sigEvs :=
        if bt = .thinking then
          match st.pendingSig with
          | some s => [SEvent.blockDelta st.blockIndex (.signatureDelta s)]
          | none => []
        else []
      let st' := { st with
        blockType := .none,
        blockIndex := st.blockIndex + 1,
        pendingSig := if bt = .thinking then none else st.pendingSig }
      (st', sigEvs ++ [SEvent.blockStop st.blockIndex])

/-- `startBlock`: close any open block, then open a new one. -/
def startBlock (st : SState) (ty : BlockTy) (block : CBlock) : SState × List SEvent :=
  let r := if st.blockType ≠ BlockTy.none then endBlock st else (st, [])
  let st := r.1
  ({ st with blockType := ty }, r.2 ++ [SEvent.blockStart st.blockIndex block])

/-- The three-event synthetic zero-length thinking block used to carry a
signature received on an empty or token-only text part (emitted with raw
`emit` calls in the source, leaving `blockType` untouched). -/
def syntheticThinkingEvents (idx : Nat) (sig : Str) : List SEvent :=
  [SEvent.blockStart idx (.thinkingB [] []),
   SEvent.blockDelta idx (.thinkingDelta []),
   SEvent.blockDelta idx (.signatureDelta sig),
   SEvent.blockStop idx]

/-- `makeToolUseId`, with the random suffix replaced by a counter. -/
def makeToolUseId (n : Nat) : Str :=
  "toolu_vrtx_gen_".toList ++ (Nat.repr n).toList

/-- `PartProcessor.processThinking`. -/
def processThinking (st : SState) (t : Str) : SState × List SEvent :=
  if st.blockType = BlockTy.thinking then
    (st, [SEvent.blockDelta st.blockIndex (.thinkingDelta t)])
  else
    let r := startBlock st .thinking (.thinkingB [] [])
    (r.1, r.2 ++ [SEvent.blockDelta r.1.blockIndex (.thinkingDelta t)])

/-- `PartProcessor.processText`. -/
def processText (st : SState) (t : Str) : SState × List SEvent :=
  if t.isEmpty then (st, [])
  else if st.blockType = BlockTy.text then
    (st, [SEvent.blockDelta st.blockIndex (.textDelta t)])
  else
    let r := startBlock st .text (.textB [])
    (r.1, r.2 ++ [SEvent.blockDelta r.1.blockIndex (.textDelta t)])

/-- `PartProcessor.processFunctionCall` (the caller has already resolved the
signature to use). -/
def processFunctionCall (fuel : Nat) (st : SState) (fc : FunctionCall) (sigToUse : Option Str) :
    SState × List SEvent :=
  let useGen := fc.id.isEmpty
  let toolId := if useGen then makeToolUseId st.genCounter else fc.id
  let st := if useGen then { st with genCounter := st.genCounter + 1 } else st
  let block := CBlock.toolUseB toolId fc.name (.obj []) sigToUse
  let r := startBlock st .function block
  let argEvs :=
    if jsTruthy fc.args then
      [SEvent.blockDelta r.1.blockIndex (.inputJsonDelta (jsonStringifyF fuel fc.args))]
    else []
  ({ r.1 with usedTool := true }, r.2 ++ argEvs)

/-- `PartProcessor.process(part)`: the streaming per-part transition. -/
def processPart (fuel : Nat) (st : SState) (part : GPart) : SState × List SEvent :=
  let signature := part.thoughtSignature
  match part.functionCall with
  | some fc =>
      let r0 : SState × List SEvent :=
        match st.trailingSignature with
        | some trail =>
            if st.hasThinking then
              let r1 := startBlock st .thinking (.thinkingB [] [])
              let evs1 := r1.2 ++
                [SEvent.blockDelta r1.1.blockIndex (.thinkingDelta []),
                 SEvent.blockDelta r1.1.blockIndex (.signatureDelta trail)]
              let r2 := endBlock r1.1
              ({ r2.1 with trailingSignature := none }, evs1 ++ r2.2)
            else ({ st with trailingSignature := none }, [])
        | none => (st, [])
      let r := processFunctionCall fuel r0.1 fc signature
      (r.1, r0.2 ++ r.2)
  | none =>
      match part.text with
      | none => (st, [])
      | some t =>
          if !part.thought && t.isEmpty then
            match signature with
            | some s => ({ st with trailingSignature := some s }, [])
            | none => (st, [])
          else if part.thought then
            let st := { st with hasThinking := true }
            let r0 : SState × List SEvent :=
              match st.trailingSignature with
              | some trail =>
                  let r1 := startBlock st .thinking (.thinkingB [] [])
                  let evs1 := r1.2 ++
                    [SEvent.blockDelta r1.1.blockIndex (.thinkingDelta []),
                     SEvent.blockDelta r1.1.blockIndex (.signatureDelta trail)]
                  let r2 := endBlock r1.1
                  ({ r2.1 with trailingSignature := none }, evs1 ++ r2.2)
              | none => (st, [])
            let r := processThinking r0.1 t
            let stAfter := match signature with
              | some s => { r.1 with pendingSig := some s }
              | none => r.1
            (stAfter, r0.2 ++ r.2)
          else
            let r0 : SState × List SEvent :=
              match st.trailingSignature with
              | some trail =>
                  if st.hasThinking then
                    let r1 := startBlock st .thinking (.thinkingB [] [])
                    let evs1 := r1.2 ++
                      [SEvent.blockDelta r1.1.blockIndex (.thinkingDelta []),
                       SEvent.blockDelta r1.1.blockIndex (.signatureDelta trail)]
                    let r2 := endBlock r1.1
                    ({ r2.1 with trailingSignature := none }, evs1 ++ r2.2)
                  else ({ st with trailingSignature := none }, [])
              | none => (st, [])
            let st0 := r0.1
            match signature with
            | some s =>
                if !st0.hasThinking then
                  let r := processText st0 t
                  (r.1, r0.2 ++ r.2)
                else
                  let r1 := endBlock st0
                  let r2 := startBlock r1.1 .text (.textB [])
                  let evs2 := r2.2 ++ [SEvent.blockDelta r2.1.blockIndex (.textDelta t)]
                  let r3 := endBlock r2.1
                  let st3 := r3.1
                  let evs4 := syntheticThinkingEvents st3.blockIndex s
                  ({ st3 with blockIndex := st3.blockIndex + 1 },
                   r0.2 ++ r1.2 ++ evs2 ++ r3.2 ++ evs4)
            | none =>
                let r := processText st0 t
                (r.1, r0.2 ++ r.2)

/-- `StreamingState.emitFinish(finishReason, usageMetadata)`: close the open
block, materialise (or drop) the trailing signature, then emit the terminal
`message_delta`/`message_stop` pair. -/
def emitFinish (st : SState) (finishReason : Str) (usage : UsageMeta) : SState × List SEvent :=
  let r1 := endBlock st
  let st := r1.1
  let r2 : SState × List SEvent :=
    match st.trailingSignature with
    | some trail =>
        if st.hasThinking then
          ({ st with blockIndex := st.blockIndex + 1, trailingSignature := none },
           syntheticThinkingEvents st.blockIndex trail)
        else ({ st with trailingSignature := none }, [])
    | none => (st, [])
  let st := r2.1
  let stopReason :=
    if st.usedTool then "tool_use".toList
    else if finishReason = "MAX_TOKENS".toList then "max_tokens".toList
    else "end_turn".toList
  let evs3 := [SEvent.messageDelta stopReason (toClaudeUsage usage)]
  let r4 : SState × List SEvent :=
    if st.messageStopSent then (st, [])
    else ({ st with messageStopSent := true }, [SEvent.messageStop])
  (r4.1, r1.2 ++ r2.2 ++ evs3 ++ r4.2)

/-- Run the streaming machine over a part sequence and finish: the transcoded
event stream of one backend candidate. -/
def streamRun (fuel : Nat) (parts : List GPart) (finishReason : Str) (usage : UsageMeta) :
    List SEvent :=
  let step := fun (acc : SState × List SEvent) (p : GPart) =>
    let r := processPart fuel acc.1 p
    (r.1, acc.2 ++ r.2)
  let r := parts.foldl step ({}, [])
  let fin := emitFinish r.1 finishReason usage
  r.2 ++ fin.2

/-- A non-streaming Claude content block. -/
inductive NSBlock where
  | thinkingB (thinking : Str) (signature : Option Str)
  | textB (text : Str)
  | toolUseB (id : Str) (name : Str) (input : JVal) (signature : Option Str)

/-- `NonStreamingProcessor` mutable fields. -/
structure NState where
  contentBlocks : List NSBlock := []
  textBuilder : Str := []
  thinkingBuilder : Str := []
  hasToolCall : Bool := false
  hasThinking : Bool := false
  thinkingSignature : Option Str := none
  trailingSignature : Option Str := none
  genCounter : Nat := 0

/-- `flushText`. -/
def nsFlushText (st : NState) : NState :=
  if st.textBuilder.isEmpty then st
  else { st with contentBlocks := st.contentBlocks ++ [NSBlock.textB st.textBuilder], textBuilder := [] }

/-- `flushThinking` (emits even an empty thinking block when a thinking
signature is pending, so the signature lands in the right position). -/
def nsFlushThinking (st : NState) : NState :=
  if st.thinkingBuilder.isEmpty && st.thinkingSignature.isNone then st
  else
    { st with
      contentBlocks := st.contentBlocks ++ [NSBlock.thinkingB st.thinkingBuilder st.thinkingSignature],
      thinkingBuilder := [],
      thinkingSignature := none }

/-- `NonStreamingProcessor.processPart`. -/
def nsProcessPart (st : NState) (part : GPart) : NState :=
  let signature := part.thoughtSignature
  match part.functionCall with
  | some fc =>
      let st := nsFlushText (nsFlushThinking st)
      let st :=
        match st.trailingSignature with
        | some trail =>
            if st.hasThinking then
              { st with contentBlocks := st.contentBlocks ++ [NSBlock.thinkingB [] (some trail)],
                        trailingSignature := none }
            else { st with trailingSignature := none }
        | none => st
      let st := { st with hasToolCall := true }
      let useGen := fc.id.isEmpty
      let toolId := if useGen then makeToolUseId st.genCounter else fc.id
      let st := if useGen then { st with genCounter := st.genCounter + 1 } else st
      let block := NSBlock.toolUseB toolId fc.name
        (if jsTruthy fc.args then fc.args else .obj []) signature
      { st with contentBlocks := st.contentBlocks ++ [block] }
  | none =>
      match part.text with
      | none => st
      | some t =>
          if part.thought then
            let st := nsFlushText st
            let st :=
              match st.trailingSignature with
              | some trail =>
                  let st := nsFlushThinking st
                  let st :=
                    if st.hasThinking then
                      { st with contentBlocks := st.contentBlocks ++ [NSBlock.thinkingB [] (some trail)] }
                    else st
                  { st with trailingSignature := none }
              | none => st
            let st := { st with thinkingBuilder := st.thinkingBuilder ++ t }
            match signature with
            | some s => { st with thinkingSignature := some s }
            | none => st
          else if t.isEmpty then
            match signature with
            | some s => { st with trailingSignature := some s }
            | none => st
          else
            let st := nsFlushThinking st
            let st :=
              match st.trailingSignature with
              | some trail =>
                  let st := nsFlushText st
                  let st :=
                    if st.hasThinking then
                      { st with contentBlocks := st.contentBlocks ++ [NSBlock.thinkingB [] (some trail)] }
                    else st
                  { st with trailingSignature := none }
              | none => st
            let st := { st with textBuilder := st.textBuilder ++ t }
            match signature with
            | some s =>
                if st.hasThinking then
                  let st := nsFlushText st
                  { st with contentBlocks := st.contentBlocks ++ [NSBlock.thinkingB [] (some s)] }
                else st
            | none => st

/-- `NonStreamingProcessor.process()` on one candidate's parts: pre-scan for
thinking, fold the parts, flush, then materialise or drop the trailing
signature; returns the content blocks and the `stop_reason`. -/
def nsProcess (parts : List GPart) (finishReason : Str) : List NSBlock × Str :=
  let st0 : NState := { hasThinking := parts.any (fun p => p.thought) }
  let st := parts.foldl nsProcessPart st0
  let st := nsFlushText (nsFlushThinking st)
  let st :=
    match st.trailingSignature with
    | some trail =>
        if st.hasThinking then
          { st with contentBlocks := st.contentBlocks ++ [NSBlock.thinkingB [] (some trail)],
                    trailingSignature := none }
        else { st with trailingSignature := none }
    | none => st
  let stopReason :=
    if st.hasToolCall then "tool_use".toList
    else if finishReason = "MAX_TOKENS".toList then "max_tokens".toList
    else "end_turn".toList
  (st.contentBlocks, stopReason)

/-!
## JSON.parse (to the fidelity needed by the SSE scanner and the bridge
parser: numbers are kept as raw tokens, `\u` escapes outside the surrogate
range decode to the scalar value)
-/

/-- JSON insignificant whitespace. -/
def isJsonWsC (c : Char) : Bool := c = ' ' || c = '\t' || c = '\n' || c = '\r'

/-- Drop leading JSON whitespace. -/
def skipJsonWs (s : Str) : Str := s.dropWhile isJsonWsC

/-- Hex digit value. -/
def hexVal (c : Char) : Option Nat :=
  if '0' ≤ c && c ≤ '9' then some (c.toNat - 48)
  else if 'a' ≤ c && c ≤ 'f' then some (c.toNat - 87)
  else if 'A' ≤ c && c ≤ 'F' then some (c.toNat - 55)
  else none

/-- Parse the body of a JSON string literal after the opening quote; returns
the decoded string and the remainder after the closing quote. -/
def parseJsonStringBody : Str → Str → Option (Str × Str)
  | [], _ => none
  | '"' :: rest, acc => some (acc.reverse, rest)
  | '\\' :: 'u' :: h1 :: h2 :: h3 :: h4 :: rest, acc =>
      match hexVal h1, hexVal h2, hexVal h3, hexVal h4 with
      | some a, some b, some c, some d =>
          parseJsonStringBody rest (Char.ofNat (((a * 16 + b) * 16 + c) * 16 + d) :: acc)
      | _, _, _, _ => none
  | '\\' :: e :: rest, acc =>
      if e = '"' then parseJsonStringBody rest ('"' :: acc)
      else if e = '\\' then parseJsonStringBody rest ('\\' :: acc)
      else if e = '/' then parseJsonStringBody rest ('/' :: acc)
      else if e = 'n' then parseJsonStringBody rest ('\n' :: acc)
      else if e = 't' then parseJsonStringBody rest ('\t' :: acc)
      else if e = 'r' then parseJsonStringBody rest ('\r' :: acc)
      else if e = 'b' then parseJsonStringBody rest (Char.ofNat 8 :: acc)
      else if e = 'f' then parseJsonStringBody rest (Char.ofNat 12 :: acc)
      else none
  | c :: rest, acc => parseJsonStringBody rest (c :: acc)

/-- Parse a JSON number token, keeping the raw text. -/
def parseJsonNumber (s : Str) : Option (Str × Str) :=
  let (neg, s1) := match s with
    | '-' :: t => (['-'], t)
    | _ => ([], s)
  let digits := s1.takeWhile Char.isDigit
  if digits.isEmpty then none
  else
    let s2 := s1.drop digits.length
    let (frac, s3) := match s2 with
      | '.' :: t =>
          let fd := t.takeWhile Char.isDigit
          if fd.isEmpty then (([] : Str), s2) else ('.' :: fd, t.drop fd.length)
      | _ => ([], s2)
    if frac.isEmpty && (match s2 with | '.' :: _ => true | _ => false) then none
    else
      let (ex, s4) := match s3 with
        | e :: t =>
            if e = 'e' || e = 'E' then
              let (sgn, t2) := match t with
                | c :: t3 => if c = '+' || c = '-' then ([c], t3) else (([] : Str), t)
                | [] => ([], t)
              let ed := t2.takeWhile Char.isDigit
              if ed.isEmpty then (([] : Str), s3) else (e :: (sgn ++ ed), t2.drop ed.length)
            else ([], s3)
        | [] => ([], s3)
      some (neg ++ digits ++ frac ++ ex, s4)

/-- Tail of a JSON array after `[` (fuelled; every step consumes input). -/
def parseArrTail (p : Str → Option (JVal × Str)) : Nat → Str → List JVal → Option (JVal × Str)
  | 0, _, _ => none
  | fuel + 1, s, acc =>
      match p s with
      | none => none
      | some (v, rest) =>
          match skipJsonWs rest with
          | ',' :: rest2 => parseArrTail p fuel rest2 (acc ++ [v])
          | ']' :: rest2 => some (.arr (acc ++ [v]), rest2)
          | _ => none

/-- Tail of a JSON object after `{` (duplicate keys overwrite in place, as in
`JSON.parse`). -/
def parseObjTail (p : Str → Option (JVal × Str)) : Nat → Str → List (Str × JVal) →
    Option (JVal × Str)
  | 0, _, _ => none
  | fuel + 1, s, acc =>
      match skipJsonWs s with
      | '"' :: rest =>
          match parseJsonStringBody rest [] with
          | none => none
          | some (k, rest2) =>
              match skipJsonWs rest2 with
              | ':' :: rest3 =>
                  match p rest3 with
                  | none => none
                  | some (v, rest4) =>
                      match skipJsonWs rest4 with
                      | ',' :: rest5 => parseObjTail p fuel rest5 (setKey acc k v)
                      | '\x7d' :: rest5 => some (.obj (setKey acc k v), rest5)
                      | _ => none
              | _ => none
      | _ => none

/-- Fuelled JSON value parser (fuel at least the input length suffices). -/
def parseJsonValF : Nat → Str → Option (JVal × Str)
  | 0, _ => none
  | fuel + 1, s =>
      let s := skipJsonWs s
      match s with
      | [] => none
      | c :: rest =>
          if c = '"' then (parseJsonStringBody rest []).map (fun r => (JVal.str r.1, r.2))
          else if c = '\x7b' then
            match skipJsonWs rest with
            | '\x7d' :: rest2 => some (.obj [], rest2)
            | _ => parseObjTail (fun t => parseJsonValF fuel t) fuel rest []
          else if c = '[' then
            match skipJsonWs rest with
            | ']' :: rest2 => some (.arr [], rest2)
            | _ => parseArrTail (fun t => parseJsonValF fuel t) fuel rest []
          else if jsStartsWith s "true".toList then some (.bool true, s.drop 4)
          else if jsStartsWith s "false".toList then some (.bool false, s.drop 5)
          else if jsStartsWith s "null".toList then some (.null, s.drop 4)
          else (parseJsonNumber s).map (fun r => (JVal.num r.1, r.2))

/-- `JSON.parse` (`none` models a thrown `SyntaxError`, including trailing
garbage). -/
def jsonParse (s : Str) : Option JVal :=
  match parseJsonValF (s.length + 2) s with
  | some (v, rest) => if (skipJsonWs rest).isEmpty then some v else none
  | none => none

/-!
## Switch-signal detection over the buffered transcoded stream
(claudeApiMcp.js: readStreamToString / streamFromString / hasMcpSwitchSignal /
bufferForMcpSwitchAndMaybeRetry)
-/

/-- The literal switch marker `AG2API_SWITCH_TO_MCP_MODEL`. -/
def mcpSwitchSignal : Str := "AG2API_SWITCH_TO_MCP_MODEL".toList

/-- The `data: ` payload of one SSE chunk, after the source's trim and the
empty/`[DONE]` skip. -/
def dataPayloadOfChunk (chunk : Str) : Option Str :=
  let lines := jsSplit chunk ['\n']
  match lines.find? (fun l => jsStartsWith l "data: ".toList) with
  | none => none
  | some dataLine =>
      let payload := jsTrim (jsSliceFrom dataLine 6)
      if payload.isEmpty || payload = "[DONE]".toList then none else some payload

/-- The strong trigger: a `content_block_start` whose `content_block` is a
`tool_use` named with the bridged `mcp__` prefix. -/
def isBridgedToolUseStart (obj : JVal) : Bool :=
  match obj with
  | .obj kvs =>
      (match getKey kvs "type".toList with
       | some (.str t) => t = "content_block_start".toList
       | _ => false)
      && (match getKey kvs "content_block".toList with
          | some (.obj cb) =>
              (match getKey cb "type".toList with
               | some (.str t) => t = "tool_use".toList
               | _ => false)
              && (match getKey cb "name".toList with
                  | some (.str n) => jsStartsWith n "mcp__".toList
                  | _ => false)
          | _ => false)
  | _ => false

/-- The `text_delta` text contributed by one parsed event (empty when the
event is not a `content_block_delta` carrying a string `text_delta`). -/
def textDeltaOf (obj : JVal) : Str :=
  match obj with
  | .obj kvs =>
      let isDelta : Bool := match getKey kvs "type".toList with
        | some (.str t) => t = "content_block_delta".toList
        | _ => false
      if isDelta then
        match getKey kvs "delta".toList with
        | some (.obj d) =>
            let isTextDelta : Bool := match getKey d "type".toList with
              | some (.str t) => t = "text_delta".toList
              | _ => false
            if isTextDelta then
              match getKey d "text".toList with
              | some (.str t) => t
              | _ => []
            else []
        | _ => []
      else []
  | _ => []

/-- The chunk loop of `hasMcpSwitchSignal`: immediate `true` on a bridged
`tool_use` start, otherwise accumulate `text_delta` text and test the marker
at the end. -/
def hasMcpSwitchSignalGo : List Str → Str → Bool
  | [], textOut => jsIncludes textOut mcpSwitchSignal
  | chunk :: rest, textOut =>
      match dataPayloadOfChunk chunk with
      | none => hasMcpSwitchSignalGo rest textOut
      | some payload =>
          match jsonParse payload with
          | none => hasMcpSwitchSignalGo rest textOut
          | some obj =>
              if isBridgedToolUseStart obj then true
              else hasMcpSwitchSignalGo rest (textOut ++ textDeltaOf obj)

/-- `hasMcpSwitchSignal(transformedSseText)`. -/
def hasMcpSwitchSignal (s : Str) : Bool :=
  hasMcpSwitchSignalGo (jsSplit s "\n\n".toList) []

/-- The parsed `data:` events of the buffered stream, in order. -/
def sseObjs (s : Str) : List JVal :=
  (jsSplit s "\n\n".toList).filterMap (fun c => (dataPayloadOfChunk c).bind jsonParse)

/-- `readStreamToString`: the decoded concatenation of the stream's chunks
(the streaming `TextDecoder` on valid UTF-8 input decodes a chunked stream to
the concatenation of the chunks' text). -/
def readStreamToString (chunks : List Str) : Str := chunks.flatten

/-- `streamFromString(text)`: a one-chunk stream holding exactly `text`. -/
def streamFromString (t : Str) : List Str := [t]

/-- Outcome of `bufferForMcpSwitchAndMaybeRetry` up to the retry call:
`passthrough` models the early `return null` (caller keeps the original
response), `replay s` the `{finalResponseBody: streamFromString(buffered)}`
return, and `retry` the switch-and-retry path. -/
inductive SwitchOutcome where
  | passthrough
  | replay (stream : List Str)
  | retry

/-- The buffering decision of `bufferForMcpSwitchAndMaybeRetry`. -/
def bufferForMcpSwitchDecision (shouldBufferForSwitch : Bool)
    (convertedBody : Option (List Str)) : SwitchOutcome :=
  if !shouldBufferForSwitch then .passthrough
  else
    match convertedBody with
    | none => .passthrough
    | some chunks =>
        let buffered := readStreamToString chunks
        if hasMcpSwitchSignal buffered then .retry
        else .replay (streamFromString buffered)

/-!
## MCP XML bridge response parser (mcpXmlBridge.js: parseXmlToObject,
tryParseMcpToolCallXml, createMcpXmlStreamParser)
-/

/-- The tag-name character class of the `parseXmlToObject` tokenizer regex
(`[A-Za-z0-9_:.\-]` plus the escaped backslash). -/
def isXmlNameChar (c : Char) : Bool :=
  ('A' ≤ c && c ≤ 'Z') || ('a' ≤ c && c ≤ 'z') || ('0' ≤ c && c ≤ '9') ||
    c = '_' || c = ':' || c = '.' || c = '\\' || c = '-'

/-- Try to match one tag token (`<\/?name\s*\/?>`) at a position starting
with `<`; returns the token and the remainder. -/
def matchTagAt (s : Str) : Option (Str × Str) :=
  match s with
  | '<' :: r1 =>
      let (slashOpen, r2) := match r1 with
        | '/' :: t => ((['/'] : Str), t)
        | _ => ([], r1)
      let name := r2.takeWhile isXmlNameChar
      if name.isEmpty then none
      else
        let r3 := r2.drop name.length
        let ws := r3.takeWhile isJsWs
        let r4 := r3.drop ws.length
        let (selfSlash, r5) := match r4 with
          | '/' :: t => ((['/'] : Str), t)
          | _ => ([], r4)
        match r5 with
        | '>' :: r6 => some ('<' :: (slashOpen ++ name ++ ws ++ selfSlash ++ ['>']), r6)
        | _ => none
  | _ => none

/-- The tokenizer of `parseXmlToObject`: tag tokens or maximal `<`-free text
runs; an unmatched `<` belongs to no token and is skipped, as with the
source's global regex. -/
def xmlTokenize : Nat → Str → List Str
  | 0, _ => []
  | _, [] => []
  | fuel + 1, s@('<' :: rest) =>
      match matchTagAt s with
      | some (tok, r) => tok :: xmlTokenize fuel r
      | none => xmlTokenize fuel rest
  | fuel + 1, s =>
      let run := s.takeWhile (fun c => c ≠ '<')
      run :: xmlTokenize fuel (s.drop run.length)

/-- Flattened XML tree node: children are kept as a list of nodes.  (Defined
as a separate inductive because of the nested list.) -/
inductive XTree where
  | node (name : Str) (children : List XTree) (text : Str)

/-- Name of an XML tree node. -/
def XTree.nameOf : XTree → Str
  | .node n _ _ => n

/-- Append a child to a node. -/
def XTree.addChild : XTree → XTree → XTree
  | .node n cs t, c => .node n (cs ++ [c]) t

/-- Append text to a node. -/
def XTree.addText : XTree → Str → XTree
  | .node n cs t, more => .node n cs (t ++ more)

/-- Classification and name extraction for a tag token
(`token.replace(/^<\/?/, "").replace(/\s*\/?>$/, "").trim()`). -/
def tagTokenName (token : Str) : Str :=
  let t1 := match token with
    | '<' :: '/' :: r => r
    | '<' :: r => r
    | r => r
  let t2 := t1.reverse
  let t3 := match t2 with
    | '>' :: r =>
        let r2 := match r with
          | '/' :: r3 => r3
          | _ => r
        r2.dropWhile isJsWs
    | _ => t2
  jsTrim t3.reverse

/-- The token-to-stack loop of `parseXmlToObject` (stack head = innermost
open node). -/
def xmlStackLoop : List Str → List XTree → List XTree
  | [], stack => stack
  | token :: rest, stack =>
      if jsStartsWith token ['<'] then
        let isClose := jsStartsWith token "</".toList
        let isSelfClose := List.isSuffixOf "/>".toList token
        let tagName := tagTokenName token
        if tagName.isEmpty then xmlStackLoop rest stack
        else if isClose then
          match stack with
          | top :: parent :: more => xmlStackLoop rest (parent.addChild top :: more)
          | _ => xmlStackLoop rest stack
        else if isSelfClose then
          match stack with
          | top :: more => xmlStackLoop rest (top.addChild (.node tagName [] []) :: more)
          | [] => xmlStackLoop rest stack
        else
          xmlStackLoop rest (XTree.node tagName [] [] :: stack)
      else
        match stack with
        | top :: more => xmlStackLoop rest (top.addText token :: more)
        | [] => xmlStackLoop rest stack

/-- Collapse any unclosed nodes at end of input (`while (stack.length > 1)`). -/
def xmlUnwind : XTree → List XTree → XTree
  | top, [] => top
  | top, parent :: more => xmlUnwind (parent.addChild top) more

/-- `nodeToValue`: leaves become their trimmed text, inner nodes become
objects keyed by child name (repeats collect into arrays), with `_text` for
surrounding text.  Fuelled on tree depth. -/
def nodeToValueF : Nat → XTree → JVal
  | 0, _ => .null
  | fuel + 1, .node _ children text =>
      let t := jsTrim text
      if children.isEmpty then .str t
      else
        let out := children.foldl (fun out child =>
          let v := nodeToValueF fuel child
          match getKey out child.nameOf with
          | some (.arr vs) => setKey out child.nameOf (.arr (vs ++ [v]))
          | some old => setKey out child.nameOf (.arr [old, v])
          | none => setKey out child.nameOf v) []
        if t.isEmpty then .obj out
        else .obj (setKey out "_text".toList (.str t))

/-- `parseXmlToObject(xml)`. -/
def parseXmlToObject (xml : Str) : JVal :=
  let tokens := xmlTokenize (xml.length + 1) xml
  let stack := xmlStackLoop tokens [XTree.node "root".toList [] []]
  match stack with
  | [] => nodeToValueF (xml.length + 2) (.node "root".toList [] [])
  | top :: more => nodeToValueF (xml.length + 2) (xmlUnwind top more)

/-- Case-insensitive match of the open-tag regex `^<name(?:\s[^>]*)?>`;
returns the length of the match. -/
def matchOpenTagCI (name text : Str) : Option Nat :=
  let lt := jsToLower text
  let ln := jsToLower name
  if !jsStartsWith lt ('<' :: ln) then none
  else
    match text.drop (1 + name.length) with
    | '>' :: _ => some (name.length + 2)
    | c :: cs =>
        if isJsWs c then
          let inner := cs.takeWhile (fun ch => ch ≠ '>')
          match cs.drop inner.length with
          | '>' :: _ => some (1 + name.length + 1 + inner.length + 1)
          | _ => none
        else none
    | [] => none

/-- Case-insensitive match of the close-tag regex `<\/name\s*>$`. -/
def closeMatchesCI (name text : Str) : Bool :=
  let t := jsToLower text
  match t.reverse with
  | '>' :: r =>
      let r2 := r.dropWhile isJsWs
      jsStartsWith r2 ((jsToLower name).reverse ++ ['/', '<'])
  | _ => false

/-- `tryParseMcpToolCallXml(xmlText, toolName)`: extract and parse the body
of a complete bridge tag pair (JSON first, then the minimal XML tree, the raw
fallback being unreachable since the model's XML parser is total). -/
def tryParseMcpToolCallXml (xmlText toolName : Str) : Option (Str × JVal) :=
  let name := toolName
  let text := jsTrim xmlText
  if name.isEmpty || text.isEmpty then none
  else
    match matchOpenTagCI name text with
    | none => none
    | some openLen =>
        if !closeMatchesCI name text then none
        else
          match jsLastIndexOf (jsToLower text) ('<' :: '/' :: jsToLower name) with
          | none => none
          | some closeStart =>
              if closeStart < openLen then none
              else
                let inner := jsTrim (jsSlice text openLen closeStart)
                if inner.isEmpty then some (name, .obj [])
                else
                  let xmlFallback :=
                    let wrapped := "<root>".toList ++ inner ++ "</root>".toList
                    let v := parseXmlToObject wrapped
                    let picked := match v with
                      | .obj kvs =>
                          match getKey kvs "root".toList with
                          | some r => r
                          | none => v
                      | _ => v
                    some (name, picked)
                  if inner.head? = some '\x7b' || inner.head? = some '[' then
                    match jsonParse inner with
                    | some v => some (name, v)
                    | none => xmlFallback
                  else xmlFallback

/-- An event of the streaming bridge tokenizer. -/
inductive McpEvent where
  | text (t : Str)
  | tool (name : Str) (input : JVal)

/-- The declared-name set of `createMcpXmlStreamParser` (falsy names dropped,
first-occurrence `Set` order). -/
def mcpNames (toolNames : List Str) : List Str :=
  let rec dedup (seen : List Str) : List Str → List Str
    | [] => []
    | n :: rest => if n ∈ seen then dedup seen rest else n :: dedup (n :: seen) rest
  dedup [] (toolNames.filter (fun n => !n.isEmpty))

/-- `isPossibleToolTagPrefix`: the fragment starts with `<` and is a prefix
of some declared open- or close-tag. -/
def isPossibleToolTagStart (names : List Str) (frag : Str) : Bool :=
  jsStartsWith frag ['<'] &&
    names.any (fun name =>
      jsStartsWith ('<' :: name) frag || jsStartsWith ('<' :: '/' :: name) frag)

/-- `splitBufferForPartialTag`: hold back a trailing possible tag fragment. -/
def splitBufferForPartialTag (names : List Str) (raw : Str) : Str × Str :=
  if raw.isEmpty then ([], [])
  else
    match jsLastIndexOf raw ['<'] with
    | none => (raw, [])
    | some lastLt =>
        let tail := jsSliceFrom raw lastLt
        if isPossibleToolTagStart names tail then (jsSlice raw 0 lastLt, tail)
        else (raw, [])

/-- Per-name scan of `findNextToolStartIndex`: first occurrence of the open
tag with a full-name boundary (`>`, `/` or whitespace). -/
def findOpenForName (text name : Str) : Nat → Nat → Option Nat
  | 0, _ => none
  | fuel + 1, start =>
      match jsIndexOfFrom text ('<' :: name) start with
      | none => none
      | some idx =>
          match (text.drop (idx + name.length + 1)).head? with
          | none => findOpenForName text name fuel (idx + 1)
          | some c =>
              if c = '>' || c = '/' || isJsWs c then some idx
              else findOpenForName text name fuel (idx + 1)

/-- `findNextToolStartIndex`: earliest boundary-checked open tag across the
declared names; on a tie the longer name wins. -/
def findNextToolStart (names : List Str) (text : Str) : Option (Nat × Str) :=
  names.foldl (fun best name =>
    match findOpenForName text name (text.length + 1) 0 with
    | none => best
    | some idx =>
        match best with
        | none => some (idx, name)
        | some (bidx, bname) =>
            if idx < bidx then some (idx, name)
            else if idx = bidx && name.length > bname.length then some (idx, name)
            else best) none

/-- `findCloseTagEndIndex`: index just past the `>` of the first complete,
boundary-checked close tag (whitespace allowed before `>`). -/
def findCloseTagEnd (src name : Str) : Nat → Nat → Option Nat
  | 0, _ => none
  | fuel + 1, start =>
      match jsIndexOfFrom src ('<' :: '/' :: name) start with
      | none => none
      | some idx =>
          let after := idx + name.length + 2
          match (src.drop after).head? with
          | none => none
          | some ch =>
              if !(ch = '>' || isJsWs ch) then findCloseTagEnd src name fuel (idx + 1)
              else
                match jsIndexOfFrom src ['>'] after with
                | none => none
                | some gt =>
                    if (jsSlice src after gt).all isJsWs then some (gt + 1)
                    else findCloseTagEnd src name fuel (idx + 1)

/-- The `while (true)` scan of `pushText`, fuelled by the buffer length. -/
def pushTextLoop (names : List Str) : Nat → Str → List McpEvent → Str × List McpEvent
  | 0, buffer, out => (buffer, out)
  | fuel + 1, buffer, out =>
      match findNextToolStart names buffer with
      | none =>
          let ek := splitBufferForPartialTag names buffer
          (ek.2, out ++ (if ek.1.isEmpty then [] else [.text ek.1]))
      | some (idx, name) =>
          let out := if idx > 0 then out ++ [McpEvent.text (jsSlice buffer 0 idx)] else out
          let buffer := if idx > 0 then jsSliceFrom buffer idx else buffer
          match findCloseTagEnd buffer name (buffer.length + 1) 0 with
          | none => (buffer, out)
          | some closeEnd =>
              let xml := jsSlice buffer 0 closeEnd
              let buffer := jsSliceFrom buffer closeEnd
              match tryParseMcpToolCallXml xml name with
              | some (nm, input) => pushTextLoop names fuel buffer (out ++ [.tool nm input])
              | none => pushTextLoop names fuel buffer (out ++ [.text xml])

/-- `pushText(text)`: append to the buffer and scan; returns the new buffer
and the emitted events. -/
def mcpPushText (names : List Str) (buffer textIn : Str) : Str × List McpEvent :=
  if textIn.isEmpty then (buffer, [])
  else
    let buffer := buffer ++ textIn
    pushTextLoop names (buffer.length + 1) buffer []

/-- `flush()`: emit any remaining buffer as text. -/
def mcpFlush (buffer : Str) : Str × List McpEvent :=
  ([], if buffer.isEmpty then [] else [.text buffer])

/-- Feed a chunk sequence through a fresh parser and flush: the full event
stream of `createMcpXmlStreamParser(toolNames)`. -/
def mcpFeed (toolNames : List Str) (chunks : List Str) : List McpEvent :=
  let names := mcpNames toolNames
  let r := chunks.foldl (fun (acc : Str × List McpEvent) c =>
      let r := mcpPushText names acc.1 c
      (r.1, acc.2 ++ r.2)) (([] : Str), ([] : List McpEvent))
  r.2 ++ (mcpFlush r.1).2

/-- The number of parsed tool events in an event stream. -/
def countToolEvents (evs : List McpEvent) : Nat :=
  (evs.filter (fun e => match e with | .tool _ _ => true | _ => false)).length

/-- The bridge tool-call markup `<name>JSON</name>` for a given body (as
written by `buildMcpToolCallXml`, whose payload is the JSON encoding of the
input). -/
def mcpMarkup (name body : Str) : Str :=
  '<' :: name ++ ['>'] ++ body ++ ['<', '/'] ++ name ++ ['>']

/-- The concatenation of all `text_delta` texts of the buffered stream. -/
def accumTextDeltas (s : Str) : Str := ((sseObjs s).map textDeltaOf).flatten

/-- Whether some single parsed event of the buffered stream is a bridged
`tool_use` `content_block_start`. -/
def hasBridgedStart (s : Str) : Bool := (sseObjs s).any isBridgedToolUseStart

/-- Render an event stream into a comparable signature: each event keeps its
kind, its text, and (for tool events) the JSON rendering of its input. -/
def mcpSig (evs : List McpEvent) : List (Str × Str) :=
  evs.map (fun e =>
    match e with
    | .text t => ("text".toList, t)
    | .tool n i => ("tool".toList, n ++ ':' :: jsonStringifyF 30 i))

/-- A well-formed bridge call: `buildMcpToolCallXml("mcp__t", \x7b"city":"Paris","n":2\x7d)`. -/
def mkGoodBody : Str := "\x7b\"city\":\"Paris\",\"n\":2\x7d".toList

def mkGood : Str := mcpMarkup "mcp__t".toList mkGoodBody

/-- An adversarial bridge call: the tool input is the JSON object
`\x7b"a":"</mcp__t><mcp__t>\x7b\x7d"\x7d`, whose string value spells a close tag and an
open tag.  `buildMcpToolCallXml` embeds the JSON payload without XML escaping,
so this is the complete markup the bridge itself would write for that input. -/
def mkBadBody : Str := "\x7b\"a\":\"</mcp__t><mcp__t>\x7b\x7d\"\x7d".toList

def mkBad : Str := mcpMarkup "mcp__t".toList mkBadBody

/-!
# Helper lemmas
-/

theorem getKey_setKey_self (m : List (Str × JVal)) (k : Str) (v : JVal) :
    getKey (setKey m k v) k = some v := by
  induction m with
  | nil => simp [setKey, getKey]
  | cons kv rest ih =>
      obtain ⟨k', v'⟩ := kv
      by_cases h : k' = k
      · simp [setKey, getKey, h]
      · simp [setKey, getKey, h, ih]

theorem getKey_setKey_ne (m : List (Str × JVal)) (k k' : Str) (v : JVal) (h : k' ≠ k) :
    getKey (setKey m k v) k' = getKey m k' := by
  induction m with
  | nil => simp [setKey, getKey, Ne.symm h]
  | cons kv rest ih =>
      obtain ⟨k0, v0⟩ := kv
      by_cases h0 : k0 = k
      · subst h0
        simp [setKey, getKey, Ne.symm h]
      · by_cases h1 : k0 = k'
        · subst h1
          simp [setKey, getKey, h0]
        · simp [setKey, getKey, h0, h1, ih]

theorem getKey_eq_none_of_keys_ne (m : List (Str × JVal)) (k : Str)
    (h : ∀ kv ∈ m, kv.1 ≠ k) : getKey m k = none := by
  induction m with
  | nil => rfl
  | cons kv rest ih =>
      have hk : kv.1 ≠ k := h kv (by simp)
      obtain ⟨k0, v0⟩ := kv
      simp only [getKey]
      rw [if_neg hk]
      exact ih (fun kv' hkv' => h kv' (by simp [hkv']))

theorem setKey_eq_append_of_not_mem (m : List (Str × JVal)) (k : Str) (v : JVal)
    (h : ∀ kv ∈ m, kv.1 ≠ k) : setKey m k v = m ++ [(k, v)] := by
  induction m with
  | nil => rfl
  | cons kv rest ih =>
      have hk : kv.1 ≠ k := h kv (by simp)
      obtain ⟨k0, v0⟩ := kv
      simp only [setKey]
      rw [if_neg hk]
      simp [ih (fun kv' hkv' => h kv' (by simp [hkv']))]

theorem setKey_eq_self_of_getKey (m : List (Str × JVal)) (k : Str) (v : JVal)
    (h : getKey m k = some v) : setKey m k v = m := by
  induction m with
  | nil => simp [getKey] at h
  | cons kv rest ih =>
      obtain ⟨k0, v0⟩ := kv
      by_cases h0 : k0 = k
      · simp only [getKey, if_pos h0] at h
        cases h
        simp [setKey, h0]
      · simp only [getKey, if_neg h0] at h
        simp [setKey, h0, ih h]

theorem dropWhile_eq_self_of_head (p : Char → Bool) (l : Str)
    (h : ∀ c, l.head? = some c → p c = false) : l.dropWhile p = l := by
  cases l with
  | nil => rfl
  | cons c rest =>
      have := h c rfl
      simp [List.dropWhile, this]

theorem jsTrim_idem (s : Str) : jsTrim (jsTrim s) = jsTrim s := by
  unfold jsTrim
  set u := s.dropWhile isJsWs with hu
  set v := u.reverse.dropWhile isJsWs with hv
  have factU : ∀ c, u.head? = some c → isJsWs c = false := by
    intro c hc
    have := List.head?_dropWhile_not isJsWs s
    rw [← hu] at this
    rw [hc] at this
    simpa using this
  have factV : ∀ c, v.head? = some c → isJsWs c = false := by
    intro c hc
    have := List.head?_dropWhile_not isJsWs u.reverse
    rw [← hv] at this
    rw [hc] at this
    simpa using this
  have goalA : ∀ c, v.reverse.head? = some c → isJsWs c = false := by
    intro c hc
    rcases List.eq_nil_or_concat v.reverse with hnil | ⟨pre, d, hcat⟩
    · rw [hnil] at hc; simp at hc
    · -- v nonempty; v is a suffix of u.reverse, so its last element is u's head
      have hvne : v ≠ [] := by
        intro h0
        rw [h0] at hcat
        simp at hcat
      have hsuff : v <:+ u.reverse := by
        rw [hv]; exact List.dropWhile_suffix isJsWs
      rcases hsuff with ⟨pre2, hpre2⟩
      have hlast : v.getLast? = u.reverse.getLast? := by
        rw [← hpre2]
        exact (List.getLast?_append_of_ne_nil pre2 hvne).symm
      have hlast2 : u.reverse.getLast? = u.head? := by
        simp
      have : v.reverse.head? = v.getLast? := by simp
      rw [this, hlast, hlast2] at hc
      exact factU c hc
  rw [dropWhile_eq_self_of_head _ _ goalA]
  rw [List.reverse_reverse]
  rw [dropWhile_eq_self_of_head _ _ factV]

/-!
# Claim theorems
-/

/-- C9 counterexample: the empty object `{}` is a request body missing every
required field of the messages API, yet `handleMessages` does not reject it —
its only guard `if (!requestData)` passes truthy bodies on to
`upstream.callV1Internal`, so a backend call is made.  This refutes the claim
that every request missing required fields is rejected before any backend
call. -/
theorem c9_counterexample :
    missingRequiredFields (.obj []) = true ∧
    handleMessagesGate (some (.obj [])) = HandlerDecision.callBackend := by
  exact ⟨rfl, rfl⟩

/-- C9 (amended): the messages handler rejects a request immediately (status
400, no backend call) exactly when the parsed body is absent or JS-falsy;
any truthy body — including one missing required fields — proceeds to the
backend call. -/
theorem c9_gate_rejects_exactly_falsy_bodies (r : Option JVal) :
    handleMessagesGate r = HandlerDecision.rejectEmpty ↔
      (match r with
       | none => True
       | some v => jsTruthy v = false) := by
  cases r with
  | none => simp [handleMessagesGate]
  | some v =>
      by_cases h : jsTruthy v
      · simp [handleMessagesGate, h]
      · simp [handleMessagesGate, h]

/-- C5 counterexample: a substitute-family segment whose assistant message
carries only a `tool_use` (no text block) folds to *zero* synthetic summary
messages, not exactly one: with messages
`[user "hi", assistant[tool_use], user[tool_result], user "go"]` and the
segment open at index 1, the fold-back yields just
`[user "hi", user "go"]` — the two segment messages are dropped with no
summary message, refuting the claim's "exactly one synthetic user-role
summary message". -/
theorem c5_counterexample :
    foldBackMessages
      [{ role := "user".toList, content := .items [.text "hi".toList] },
       { role := "assistant".toList,
         content := .items [.toolUse "id1".toList "mcp__s__t".toList (.obj []) []] },
       { role := "user".toList,
         content := .items [.toolResult "id1".toList (.str "res".toList) false] },
       { role := "user".toList, content := .items [.text "go".toList] }] 1
      = [{ role := "user".toList, content := .items [.text "hi".toList] },
         { role := "user".toList, content := .items [.text "go".toList] }] := by
  rfl

theorem extractLastAssistantText_trimmed (msgs : List CMsg) (a b : Nat) :
    jsTrim (extractLastAssistantText msgs a b) = extractLastAssistantText msgs a b := by
  simp only [extractLastAssistantText]
  cases h : ((msgs.take (min msgs.length b)).drop a).reverse.find? (fun m =>
      m.role = "assistant".toList &&
        !(jsTrim (extractTextFromClaudeContent m.content)).isEmpty) with
  | none => simp [h, jsTrim]
  | some m => simp [h, jsTrim_idem]

/-- C5 (amended): after a substitute-family segment opened at message index
`s`, a fold-back on a history of `n` messages replaces the segment messages
(indices `s` to `n - 2`, the last user message being kept) by exactly one
synthetic user-role summary message carrying the most recent assistant answer
text of the segment — provided that answer text is non-empty after trimming.
When the segment contains no assistant message with non-empty text, the
segment messages are instead dropped with no summary (see the
counterexample). -/
theorem c5_foldback_one_summary (msgs : List CMsg) (s : Nat)
    (hseg : s + 1 < msgs.length)
    (hsum : extractLastAssistantText msgs s (msgs.length - 1) ≠ []) :
    foldBackMessages msgs s =
      msgs.take s ++ [summaryMessage (extractLastAssistantText msgs s (msgs.length - 1))]
        ++ msgs.drop (msgs.length - 1) := by
  have hfin : msgs.length - 1 > s := by omega
  have hne : msgs ≠ [] := by
    intro h0; rw [h0] at hseg; simp at hseg
  unfold foldBackMessages
  rw [if_pos hfin]
  unfold foldSegments
  rw [if_neg (by simpa using hne)]
  simp only [List.isEmpty_cons, Bool.false_eq_true, if_false]
  have hfilter :
      (([{ start := (s : Int), fin := ((msgs.length - 1 : Nat) : Int),
           summaryText := extractLastAssistantText msgs s (msgs.length - 1) }] :
         List Seg).filter (fun sg => sg.start ≥ 0 && sg.fin > sg.start)) =
      [{ start := (s : Int), fin := ((msgs.length - 1 : Nat) : Int),
         summaryText := extractLastAssistantText msgs s (msgs.length - 1) }] := by
    have hlt : (s : Int) < ((msgs.length - 1 : Nat) : Int) := by exact_mod_cast hfin
    simp [List.filter, hlt, hfin, Int.ofNat_nonneg]
  rw [hfilter]
  simp only [sortSegs, insertSeg]
  simp only [List.isEmpty_cons, Bool.false_eq_true, if_false]
  unfold foldSegmentsAux
  have htonat1 : ((s : Int)).toNat = s := Int.toNat_natCast s
  have htonat2 : (((msgs.length - 1 : Nat) : Int)).toNat = msgs.length - 1 :=
    Int.toNat_natCast _
  simp only [htonat1, htonat2]
  have hmin : min msgs.length s = s := by omega
  rw [hmin]
  rw [extractLastAssistantText_trimmed]
  rw [if_neg (by simpa using hsum)]
  unfold foldSegmentsAux
  have hmax : max (max 0 s) (msgs.length - 1) = msgs.length - 1 := by omega
  rw [hmax]
  simp [summaryMessage]

/-- Witness for C5's amended theorem at a concrete three-message history. -/
theorem c5_witness :
    extractLastAssistantText
      [{ role := "user".toList, content := .items [.text "hi".toList] },
       { role := "assistant".toList, content := .items [.text "answer".toList] },
       { role := "user".toList, content := .items [.text "go".toList] }] 1
      (([{ role := "user".toList, content := CContent.items [.text "hi".toList] },
         { role := "assistant".toList, content := CContent.items [.text "answer".toList] },
         { role := "user".toList, content := CContent.items [.text "go".toList] }] :
           List CMsg).length - 1) ≠ [] ∧
    foldBackMessages
      [{ role := "user".toList, content := .items [.text "hi".toList] },
       { role := "assistant".toList, content := .items [.text "answer".toList] },
       { role := "user".toList, content := .items [.text "go".toList] }] 1
      = ([{ role := "user".toList, content := CContent.items [.text "hi".toList] },
          { role := "assistant".toList, content := CContent.items [.text "answer".toList] },
          { role := "user".toList, content := CContent.items [.text "go".toList] }] :
            List CMsg).take 1
        ++ [summaryMessage (extractLastAssistantText
              [{ role := "user".toList, content := .items [.text "hi".toList] },
               { role := "assistant".toList, content := .items [.text "answer".toList] },
               { role := "user".toList, content := .items [.text "go".toList] }] 1
              (([{ role := "user".toList, content := CContent.items [.text "hi".toList] },
                 { role := "assistant".toList, content := CContent.items [.text "answer".toList] },
                 { role := "user".toList, content := CContent.items [.text "go".toList] }] :
                   List CMsg).length - 1))]
        ++ ([{ role := "user".toList, content := CContent.items [.text "hi".toList] },
             { role := "assistant".toList, content := CContent.items [.text "answer".toList] },
             { role := "user".toList, content := CContent.items [.text "go".toList] }] :
               List CMsg).drop
            (([{ role := "user".toList, content := CContent.items [.text "hi".toList] },
               { role := "assistant".toList, content := CContent.items [.text "answer".toList] },
               { role := "user".toList, content := CContent.items [.text "go".toList] }] :
                 List CMsg).length - 1) := by
  refine ⟨?_, c5_foldback_one_summary _ 1 (by decide) ?_⟩ <;> decide

theorem cleanEntryStep_preserves (c1 : JVal → JVal) (fuel : Nat) (vals : List Str)
    (acc : List (Str × JVal) × Option JVal) (k : Str) (v : JVal) (t : Str)
    (ht1 : t ≠ k)
    (ht2 : t = "type".toList → k ≠ "anyOf".toList ∧ k ≠ "oneOf".toList)
    (ht3 : t ≠ "enum".toList)
    (ht4 : t = "nullable".toList → k ≠ "type".toList) :
    getKey (cleanEntryStep c1 fuel vals acc (k, v)).1 t = getKey acc.1 t := by
  unfold cleanEntryStep
  dsimp only
  by_cases hcomb : k ∈ combinatorNames
  · rw [if_pos hcomb]
    cases v with
    | arr branches =>
        dsimp only
        by_cases hguard : ((k = "anyOf".toList || k = "oneOf".toList) &&
            !(branches.map c1).isEmpty && (branches.map c1).all isSimpleEnum) = true
        · rw [if_pos hguard]
          have hko : k = "anyOf".toList ∨ k = "oneOf".toList := by
            rcases Bool.and_eq_true_iff.mp hguard with ⟨h1, _⟩
            rcases Bool.and_eq_true_iff.mp h1 with ⟨h2, _⟩
            rcases Bool.or_eq_true_iff.mp h2 with h | h
            · exact Or.inl (by simpa using h)
            · exact Or.inr (by simpa using h)
          have htt : t ≠ "type".toList := by
            intro he
            rcases ht2 he with ⟨ha, hb⟩
            rcases hko with h | h
            · exact ha h
            · exact hb h
          by_cases htypes : (jsDedupF fuel (((branches.map c1).filterMap (fun s =>
              match s with
              | .obj skvs => getKey skvs "type".toList
              | _ => none)).filter jsTruthy)).length ≤ 1
          · rw [if_pos htypes]
            cases htypes2 : jsDedupF fuel (((branches.map c1).filterMap (fun s =>
                match s with
                | .obj skvs => getKey skvs "type".toList
                | _ => none)).filter jsTruthy) with
            | nil =>
                dsimp only
                rw [getKey_setKey_ne _ _ _ _ ht3]
            | cons ty tys =>
                dsimp only
                rw [getKey_setKey_ne _ _ _ _ htt, getKey_setKey_ne _ _ _ _ ht3]
          · rw [if_neg htypes]
            dsimp only
            rw [getKey_setKey_ne _ _ _ _ ht1]
        · rw [if_neg hguard]
          dsimp only
          rw [getKey_setKey_ne _ _ _ _ ht1]
    | str a => dsimp only; rw [getKey_setKey_ne _ _ _ _ ht1]
    | num a => dsimp only; rw [getKey_setKey_ne _ _ _ _ ht1]
    | bool b => dsimp only; rw [getKey_setKey_ne _ _ _ _ ht1]
    | null => dsimp only; rw [getKey_setKey_ne _ _ _ _ ht1]
    | obj kvs => dsimp only; rw [getKey_setKey_ne _ _ _ _ ht1]
  · rw [if_neg hcomb]
    by_cases hconst : k = "const".toList
    · rw [if_pos hconst]
    · rw [if_neg hconst]
      by_cases hrv : (k ∈ removeKeyNames || k ∈ validationFieldNames) = true
      · rw [if_pos hrv]
      · rw [if_neg hrv]
        by_cases hprops : (k = "properties".toList &&
            (match v with | .obj _ => true | _ => false)) = true
        · rw [if_pos hprops]
          cases v with
          | obj props => dsimp only; rw [getKey_setKey_ne _ _ _ _ ht1]
          | str a => simp [hprops] at hprops
          | num a => simp at hprops
          | bool b => simp at hprops
          | null => simp at hprops
          | arr xs => simp at hprops
        · rw [if_neg hprops]
          cases v with
          | arr vs =>
              by_cases hk : k = "type".toList
              · rw [if_pos (by simp [hk])]
                dsimp only
                have htt : t ≠ "type".toList := fun he => ht1 (he.trans hk.symm)
                have htn : t ≠ "nullable".toList := fun he => (ht4 he) hk
                by_cases hnull :
                    (vs.any (fun w => JVal.beqF fuel w (JVal.str "null".toList))) = true
                · rw [if_pos hnull, getKey_setKey_ne _ _ _ _ htn, getKey_setKey_ne _ _ _ _ htt]
                · rw [if_neg hnull, getKey_setKey_ne _ _ _ _ htt]
              · rw [if_neg (by simpa using hk)]
                by_cases hdesc : (decide (k = "description".toList) && decide (vals ≠ [])) = true
                · rw [if_pos hdesc]
                  dsimp only
                  rw [getKey_setKey_ne _ _ _ _ ht1]
                · rw [if_neg hdesc]
                  dsimp only
                  rw [getKey_setKey_ne _ _ _ _ ht1]
          | obj kvs2 =>
              rw [if_neg (by simp)]
              by_cases hdesc : (decide (k = "description".toList) && decide (vals ≠ [])) = true
              · rw [if_pos hdesc]
                dsimp only
                rw [getKey_setKey_ne _ _ _ _ ht1]
              · rw [if_neg hdesc]
                dsimp only
                rw [getKey_setKey_ne _ _ _ _ ht1]
          | str a =>
              rw [if_neg (by simp)]
              by_cases hdesc : (decide (k = "description".toList) && decide (vals ≠ [])) = true
              · rw [if_pos hdesc]
                dsimp only
                rw [getKey_setKey_ne _ _ _ _ ht1]
              · rw [if_neg hdesc]
                dsimp only
                rw [getKey_setKey_ne _ _ _ _ ht1]
          | num a =>
              rw [if_neg (by simp)]
              by_cases hdesc : (decide (k = "description".toList) && decide (vals ≠ [])) = true
              · rw [if_pos hdesc]
                dsimp only
                rw [getKey_setKey_ne _ _ _ _ ht1]
              · rw [if_neg hdesc]
                dsimp only
                rw [getKey_setKey_ne _ _ _ _ ht1]
          | bool b =>
              rw [if_neg (by simp)]
              by_cases hdesc : (decide (k = "description".toList) && decide (vals ≠ [])) = true
              · rw [if_pos hdesc]
                dsimp only
                rw [getKey_setKey_ne _ _ _ _ ht1]
              · rw [if_neg hdesc]
                dsimp only
                rw [getKey_setKey_ne _ _ _ _ ht1]
          | null =>
              rw [if_neg (by simp)]
              by_cases hdesc : (decide (k = "description".toList) && decide (vals ≠ [])) = true
              · rw [if_pos hdesc]
                dsimp only
                rw [getKey_setKey_ne _ _ _ _ ht1]
              · rw [if_neg hdesc]
                dsimp only
                rw [getKey_setKey_ne _ _ _ _ ht1]

/-- `beqF` on string leaves is plain equality at every fuel. -/
lemma beqF_str (fuel : Nat) (a b : Str) :
    JVal.beqF fuel (.str a) (.str b) = decide (a = b) := by
  cases fuel <;> rfl

/-- One entry-loop step leaves the captured `const` value alone whenever the
key is not `const`. -/
lemma cleanEntryStep_snd (c1 : JVal → JVal) (fuel : Nat) (vals : List Str)
    (acc : List (Str × JVal) × Option JVal) (k : Str) (v : JVal)
    (hk : k ≠ "const".toList) :
    (cleanEntryStep c1 fuel vals acc (k, v)).2 = acc.2 := by
  unfold cleanEntryStep
  dsimp only
  repeat' split
  all_goals first
    | rfl
    | exact absurd (by assumption) hk

/-- The entry loop leaves the captured `const` value alone when no key is
`const`. -/
lemma foldl_cleanEntryStep_snd (c1 : JVal → JVal) (fuel : Nat) (vals : List Str)
    (l : List (Str × JVal)) (acc : List (Str × JVal) × Option JVal)
    (hl : ∀ kv ∈ l, kv.1 ≠ "const".toList) :
    (l.foldl (cleanEntryStep c1 fuel vals) acc).2 = acc.2 := by
  induction l generalizing acc with
  | nil => rfl
  | cons kv rest ih =>
      obtain ⟨k, v⟩ := kv
      rw [List.foldl_cons,
        ih _ (fun x hx => hl x (List.mem_cons_of_mem _ hx)),
        cleanEntryStep_snd _ _ _ _ _ _ (hl (k, v) (List.mem_cons_self _ _))]

/-- The entry loop preserves the lookup of a key `t` (other than `enum`) when
no processed key equals `t`, none is a flattening combinator if `t` is
`type`, and none is `type` if `t` is `nullable`. -/
lemma foldl_cleanEntryStep_preserves (c1 : JVal → JVal) (fuel : Nat)
    (vals : List Str) (t : Str) (l : List (Str × JVal))
    (acc : List (Str × JVal) × Option JVal)
    (hl : ∀ kv ∈ l, t ≠ kv.1 ∧
      (t = "type".toList → kv.1 ≠ "anyOf".toList ∧ kv.1 ≠ "oneOf".toList) ∧
      (t = "nullable".toList → kv.1 ≠ "type".toList))
    (ht3 : t ≠ "enum".toList) :
    getKey (l.foldl (cleanEntryStep c1 fuel vals) acc).1 t = getKey acc.1 t := by
  induction l generalizing acc with
  | nil => rfl
  | cons kv rest ih =>
      obtain ⟨k, v⟩ := kv
      obtain ⟨h1, h2, h4⟩ := hl (k, v) (List.mem_cons_self _ _)
      rw [List.foldl_cons,
        ih _ (fun x hx => hl x (List.mem_cons_of_mem _ hx)),
        cleanEntryStep_preserves c1 fuel vals acc k v t h1 h2 ht3 h4]

/-- The entry-loop step on a `type: [T, "null"]` entry: it records `type: T`
and sets `nullable: true` (for `T` a non-empty token other than `null`). -/
lemma cleanEntryStep_type_null (c1 : JVal → JVal) (fuel : Nat)
    (vals : List Str) (acc : List (Str × JVal) × Option JVal) (T : Str)
    (hT : T ≠ "null".toList) (hTne : T ≠ []) :
    cleanEntryStep c1 fuel vals acc
        ("type".toList, .arr [.str T, .str "null".toList]) =
      (setKey (setKey acc.1 "type".toList (.str T)) "nullable".toList (.bool true),
       acc.2) := by
  unfold cleanEntryStep
  dsimp only
  rw [if_neg (by decide : ¬("type".toList ∈ combinatorNames))]
  rw [if_neg (by decide : ¬("type".toList = "const".toList))]
  rw [if_neg (by decide :
    ¬(("type".toList ∈ removeKeyNames || "type".toList ∈ validationFieldNames) = true))]
  rw [if_neg (by simp : ¬((decide ("type".toList = "properties".toList) &&
    match JVal.arr [JVal.str T, JVal.str "null".toList] with
    | JVal.obj kvs => true | x => false) = true))]
  rw [if_pos (by simp : ((decide ("type".toList = "type".toList) &&
    match JVal.arr [JVal.str T, JVal.str "null".toList] with
    | JVal.arr vs => true | x => false) = true))]
  have hT2 : ¬(T = ['n', 'u', 'l', 'l']) := by simpa using hT
  have hfilter : [JVal.str T, JVal.str "null".toList].filter
      (fun v => !JVal.beqF fuel v (.str "null".toList)) = [JVal.str T] := by
    simp [List.filter, beqF_str, hT2]
  have hany : [JVal.str T, JVal.str "null".toList].any
      (fun v => JVal.beqF fuel v (.str "null".toList)) = true := by
    simp [List.any, beqF_str]
  simp only [hfilter, hany, if_pos]
  have htru : jsTruthy (JVal.str T) = true := by
    cases T with
    | nil => exact absurd rfl hTne
    | cons c cs => rfl
  simp [htru]

/-- `enumDedupPost` only touches the `enum` key. -/
lemma enumDedupPost_preserves (fuel : Nat) (c : List (Str × JVal)) (t : Str)
    (ht : t ≠ "enum".toList) :
    getKey (enumDedupPost fuel c) t = getKey c t := by
  unfold enumDedupPost
  split
  · split
    · rw [getKey_setKey_ne _ _ _ _ ht]
    · rfl
  · split
    · rw [getKey_setKey_ne _ _ _ _ ht]
    · rfl
  · rfl

/-- `descPost` only touches the `description` key. -/
lemma descPost_preserves (vals : List Str) (c : List (Str × JVal)) (t : Str)
    (ht : t ≠ "description".toList) :
    getKey (descPost vals c) t = getKey c t := by
  unfold descPost
  split
  · split
    · split
      · rfl
      · rw [getKey_setKey_ne _ _ _ _ ht]
    · rw [getKey_setKey_ne _ _ _ _ ht]
  · rfl

/-- Key lookup through the `uppercaseSchemaTypes` entry map rewrites the found
value with the entry transform at that key. -/
lemma getKey_map_upEntry (r : JVal → JVal) (kvs : List (Str × JVal)) (t : Str) :
    getKey (kvs.map (upEntry r)) t =
      (getKey kvs t).map (fun v => (upEntry r (t, v)).2) := by
  induction kvs with
  | nil => rfl
  | cons kv rest ih =>
      obtain ⟨k, v⟩ := kv
      rw [List.map_cons]
      dsimp only [upEntry, getKey]
      by_cases h : k = t
      · subst h
        rw [if_pos rfl, if_pos rfl]
        rfl
      · rw [if_neg h, if_neg h]
        exact ih

/-- The object case of the sanitizer, spelled with its post-processing
helpers. -/
lemma cleanJsonSchemaF_obj_eq (fuel : Nat) (u : Bool) (kvs : List (Str × JVal)) :
    cleanJsonSchemaF (fuel + 1) u (.obj kvs) =
      (if u then
        uppercaseSchemaTypesF (fuel + 2) (.obj (descPost (buildValidationsF fuel kvs)
          (enumDedupPost fuel (constPost
            (kvs.foldl (cleanEntryStep (fun v => cleanJsonSchemaF fuel u v) fuel
              (buildValidationsF fuel kvs)) ([], none)).1
            (kvs.foldl (cleanEntryStep (fun v => cleanJsonSchemaF fuel u v) fuel
              (buildValidationsF fuel kvs)) ([], none)).2))))
      else
        .obj (descPost (buildValidationsF fuel kvs)
          (enumDedupPost fuel (constPost
            (kvs.foldl (cleanEntryStep (fun v => cleanJsonSchemaF fuel u v) fuel
              (buildValidationsF fuel kvs)) ([], none)).1
            (kvs.foldl (cleanEntryStep (fun v => cleanJsonSchemaF fuel u v) fuel
              (buildValidationsF fuel kvs)) ([], none)).2)))) := rfl

/-- C7: for every schema object whose `type` keyword is the array
`[T, "null"]` (`T` a non-empty type token other than `"null"`), and whose
other keys avoid the keywords that could overwrite the result (`const`,
another `type`/`nullable`, or an enum-flattening `anyOf`/`oneOf` after the
union), `cleanJsonSchema` outputs `type: T` — upper-cased exactly when the
`uppercaseTypes` option is on — together with `nullable: true`. -/
theorem c7_type_null_union_to_nullable
    (fuel : Nat) (u : Bool) (T : Str) (pre post kvs : List (Str × JVal))
    (hkvs : kvs = pre ++ ("type".toList, .arr [.str T, .str "null".toList]) :: post)
    (hT : T ≠ "null".toList) (hTne : T ≠ [])
    (hpre : ∀ kv ∈ pre, kv.1 ≠ "const".toList)
    (hpost : ∀ kv ∈ post, kv.1 ≠ "const".toList ∧ kv.1 ≠ "type".toList ∧
      kv.1 ≠ "nullable".toList ∧ kv.1 ≠ "anyOf".toList ∧ kv.1 ≠ "oneOf".toList) :
    getKey (objKvs (cleanJsonSchemaF (fuel + 1) u (.obj kvs))) "type".toList
      = some (.str (if u then jsToUpper T else T)) ∧
    getKey (objKvs (cleanJsonSchemaF (fuel + 1) u (.obj kvs))) "nullable".toList
      = some (.bool true) := by
  have hR2 : (kvs.foldl (cleanEntryStep (fun v => cleanJsonSchemaF fuel u v) fuel
      (buildValidationsF fuel kvs)) ([], none)).2 = none := by
    conv_lhs => rw [hkvs]
    rw [List.foldl_append, List.foldl_cons,
      foldl_cleanEntryStep_snd _ _ _ post _ (fun kv hk => (hpost kv hk).1),
      cleanEntryStep_snd _ _ _ _ _ _ (by decide),
      foldl_cleanEntryStep_snd _ _ _ pre _ hpre]
  have hRty : getKey (kvs.foldl (cleanEntryStep (fun v => cleanJsonSchemaF fuel u v) fuel
      (buildValidationsF fuel kvs)) ([], none)).1 "type".toList = some (.str T) := by
    conv_lhs => rw [hkvs]
    rw [List.foldl_append, List.foldl_cons,
      foldl_cleanEntryStep_preserves _ _ _ _ post _
        (fun kv hk => ⟨Ne.symm (hpost kv hk).2.1,
          fun _ => ⟨(hpost kv hk).2.2.2.1, (hpost kv hk).2.2.2.2⟩,
          fun h => absurd h (by decide)⟩) (by decide),
      cleanEntryStep_type_null _ _ _ _ T hT hTne]
    dsimp only
    rw [getKey_setKey_ne _ _ _ _ (by decide : "type".toList ≠ "nullable".toList),
      getKey_setKey_self]
  have hRnul : getKey (kvs.foldl (cleanEntryStep (fun v => cleanJsonSchemaF fuel u v) fuel
      (buildValidationsF fuel kvs)) ([], none)).1 "nullable".toList = some (.bool true) := by
    conv_lhs => rw [hkvs]
    rw [List.foldl_append, List.foldl_cons,
      foldl_cleanEntryStep_preserves _ _ _ _ post _
        (fun kv hk => ⟨Ne.symm (hpost kv hk).2.2.1,
          fun h => absurd h (by decide),
          fun _ => (hpost kv hk).2.1⟩) (by decide),
      cleanEntryStep_type_null _ _ _ _ T hT hTne]
    dsimp only
    rw [getKey_setKey_self]
  rw [cleanJsonSchemaF_obj_eq, hR2]
  simp only [constPost]
  cases u with
  | false =>
      rw [if_neg (by decide : ¬((false : Bool) = true))]
      constructor
      · dsimp only [objKvs]
        rw [descPost_preserves (buildValidationsF fuel kvs) _ "type".toList (by decide),
          enumDedupPost_preserves fuel _ "type".toList (by decide), hRty]
        rfl
      · dsimp only [objKvs]
        rw [descPost_preserves (buildValidationsF fuel kvs) _ "nullable".toList (by decide),
          enumDedupPost_preserves fuel _ "nullable".toList (by decide), hRnul]
  | true =>
      rw [if_pos rfl]
      have hup : ∀ C : List (Str × JVal), uppercaseSchemaTypesF (fuel + 2) (.obj C) =
          .obj (C.map (upEntry (uppercaseSchemaTypesF (fuel + 1)))) := fun C => rfl
      rw [hup]
      dsimp only [objKvs]
      constructor
      · rw [getKey_map_upEntry,
          descPost_preserves (buildValidationsF fuel kvs) _ "type".toList (by decide),
          enumDedupPost_preserves fuel _ "type".toList (by decide), hRty]
        rfl
      · rw [getKey_map_upEntry,
          descPost_preserves (buildValidationsF fuel kvs) _ "nullable".toList (by decide),
          enumDedupPost_preserves fuel _ "nullable".toList (by decide), hRnul]
        rfl

theorem c7_type_null_union_to_nullable_witness :
    (("string".toList : Str) ≠ "null".toList) ∧ (("string".toList : Str) ≠ []) ∧
    (getKey (objKvs (cleanJsonSchemaF 1 true
        (.obj [("type".toList, .arr [.str "string".toList, .str "null".toList]),
               ("description".toList, .str "d".toList)]))) "type".toList
      = some (.str (if true then jsToUpper "string".toList else "string".toList)) ∧
     getKey (objKvs (cleanJsonSchemaF 1 true
        (.obj [("type".toList, .arr [.str "string".toList, .str "null".toList]),
               ("description".toList, .str "d".toList)]))) "nullable".toList
      = some (.bool true)) :=
  ⟨by decide, by decide,
   c7_type_null_union_to_nullable 0 true "string".toList []
     [("description".toList, .str "d".toList)]
     [("type".toList, .arr [.str "string".toList, .str "null".toList]),
      ("description".toList, .str "d".toList)]
     rfl (by decide) (by decide) (by decide) (by decide)⟩

/-- Characterisation of the `hasMcpSwitchSignal` chunk loop: it fires on a
bridged `tool_use` start event, or on the switch marker occurring in the
concatenation of the accumulated text with every later `text_delta` text. -/
lemma hasMcpSwitchSignalGo_spec (chunks : List Str) (acc : Str) :
    hasMcpSwitchSignalGo chunks acc =
      ((chunks.filterMap (fun c => (dataPayloadOfChunk c).bind jsonParse)).any
          isBridgedToolUseStart
        || jsIncludes (acc ++ ((chunks.filterMap
              (fun c => (dataPayloadOfChunk c).bind jsonParse)).map textDeltaOf).flatten)
            mcpSwitchSignal) := by
  induction chunks generalizing acc with
  | nil => simp [hasMcpSwitchSignalGo]
  | cons chunk rest ih =>
      rw [hasMcpSwitchSignalGo]
      cases hp : dataPayloadOfChunk chunk with
      | none =>
          rw [ih]
          simp [List.filterMap_cons, hp]
      | some payload =>
          dsimp only
          cases hj : jsonParse payload with
          | none =>
              dsimp only
              rw [ih]
              simp [List.filterMap_cons, hp, hj]
          | some obj =>
              dsimp only
              by_cases hb : isBridgedToolUseStart obj = true
              · rw [if_pos hb]
                simp [List.filterMap_cons, hp, hj, hb]
              · rw [if_neg hb]
                rw [ih]
                simp [List.filterMap_cons, hp, hj, hb, List.append_assoc]

/-- `hasMcpSwitchSignal` in terms of the parsed event list: a per-event
bridged-start test, or the marker inside the concatenated `text_delta` text
of the whole stream. -/
lemma hasMcpSwitchSignal_spec (s : Str) :
    hasMcpSwitchSignal s =
      (hasBridgedStart s || jsIncludes (accumTextDeltas s) mcpSwitchSignal) := by
  rw [hasMcpSwitchSignal, hasMcpSwitchSignalGo_spec]
  rfl

set_option maxRecDepth 40000 in
/-- C10: switch-marker detection tests the marker against the concatenation
of every `text_delta` text of the buffered stream (so a marker split across
SSE events is still found — witnessed by a stream splitting the marker over
two events, neither of which contains it), while bridged-tool detection is a
per-event test for a single `content_block_start` whose name starts with
`mcp__`. -/
theorem c10_marker_concat_vs_per_event_tool_use :
    (∀ s, hasMcpSwitchSignal s =
      (hasBridgedStart s || jsIncludes (accumTextDeltas s) mcpSwitchSignal)) ∧
    (∀ s, hasBridgedStart s = (sseObjs s).any isBridgedToolUseStart) ∧
    (hasMcpSwitchSignal
        (("data: \x7b\"type\":\"content_block_delta\",\"delta\":\x7b\"type\":\"text_delta\",\"text\":\"xAG2API_SWITCH\"\x7d\x7d\n\ndata: \x7b\"type\":\"content_block_delta\",\"delta\":\x7b\"type\":\"text_delta\",\"text\":\"_TO_MCP_MODELy\"\x7d\x7d").toList) = true ∧
     (sseObjs
        (("data: \x7b\"type\":\"content_block_delta\",\"delta\":\x7b\"type\":\"text_delta\",\"text\":\"xAG2API_SWITCH\"\x7d\x7d\n\ndata: \x7b\"type\":\"content_block_delta\",\"delta\":\x7b\"type\":\"text_delta\",\"text\":\"_TO_MCP_MODELy\"\x7d\x7d").toList)).all
        (fun o => !(jsIncludes (textDeltaOf o) mcpSwitchSignal)
          && !(isBridgedToolUseStart o)) = true) :=
  ⟨hasMcpSwitchSignal_spec, fun _ => rfl, by decide, by decide⟩

/-- C4: a buffer-eligible first-attempt stream with no bridged `tool_use`
start and no switch marker in its concatenated `text_delta` text is replayed
to the client as a single chunk holding exactly the buffered bytes. -/
theorem c4_no_signal_replays_buffered_stream_verbatim (chunks : List Str)
    (h1 : hasBridgedStart (readStreamToString chunks) = false)
    (h2 : jsIncludes (accumTextDeltas (readStreamToString chunks)) mcpSwitchSignal = false) :
    bufferForMcpSwitchDecision true (some chunks) =
      .replay [readStreamToString chunks] := by
  simp only [bufferForMcpSwitchDecision]
  rw [hasMcpSwitchSignal_spec, h1, h2]
  rfl

set_option maxRecDepth 40000 in
theorem c4_no_signal_replays_buffered_stream_verbatim_witness :
    hasBridgedStart (readStreamToString
      [("data: \x7b\"type\":\"content_block_delta\",\"delta\":\x7b\"type\":\"text_delta\",\"text\":\"hello\"\x7d\x7d").toList]) = false ∧
    jsIncludes (accumTextDeltas (readStreamToString
      [("data: \x7b\"type\":\"content_block_delta\",\"delta\":\x7b\"type\":\"text_delta\",\"text\":\"hello\"\x7d\x7d").toList])) mcpSwitchSignal = false ∧
    bufferForMcpSwitchDecision true (some
      [("data: \x7b\"type\":\"content_block_delta\",\"delta\":\x7b\"type\":\"text_delta\",\"text\":\"hello\"\x7d\x7d").toList]) =
      .replay [readStreamToString
      [("data: \x7b\"type\":\"content_block_delta\",\"delta\":\x7b\"type\":\"text_delta\",\"text\":\"hello\"\x7d\x7d").toList]] :=
  ⟨by decide, by decide,
   c4_no_signal_replays_buffered_stream_verbatim _ (by decide) (by decide)⟩

lemma extractInlineStep_clean (fuel : Nat) (acc : List Str × List JVal × List GPart)
    (block : JVal)
    (h : ∀ p ∈ acc.2.2, p.thoughtSignature = none ∧ p.thought = false) :
    ∀ p ∈ (extractInlineStep fuel acc block).2.2,
      p.thoughtSignature = none ∧ p.thought = false := by
  intro p hp
  unfold extractInlineStep at hp
  repeat'
    first
      | exact h p hp
      | (rcases List.mem_append.mp hp with hm | hm
         · exact h p hm
         · rw [List.mem_singleton] at hm
           subst hm
           exact ⟨rfl, rfl⟩)
      | dsimp only at hp
      | split at hp

lemma extractInlineData_clean (fuel : Nat) (content : JVal) :
    ∀ p ∈ (extractInlineData fuel content).2.2,
      p.thoughtSignature = none ∧ p.thought = false := by
  have hfold : ∀ (blocks : List JVal) (acc : List Str × List JVal × List GPart),
      (∀ p ∈ acc.2.2, p.thoughtSignature = none ∧ p.thought = false) →
      ∀ p ∈ (blocks.foldl (extractInlineStep fuel) acc).2.2,
        p.thoughtSignature = none ∧ p.thought = false := by
    intro blocks
    induction blocks with
    | nil => intro acc h; exact h
    | cons b rest ih =>
        intro acc h
        rw [List.foldl_cons]
        exact ih _ (extractInlineStep_clean fuel acc b h)
  cases content with
  | arr blocks =>
      exact hfold blocks ([], [], []) (by intro p hp; cases hp)
  | str s => intro p hp; cases hp
  | num r => intro p hp; cases hp
  | bool b => intro p hp; cases hp
  | null => intro p hp; cases hp
  | obj kvs => intro p hp; cases hp

lemma reorderUserPartsAux_subset (l : List GPart) :
    ∀ reordered deferred flag p, p ∈ reorderUserPartsAux l reordered deferred flag →
      p ∈ reordered ∨ p ∈ deferred ∨ p ∈ l := by
  induction l with
  | nil =>
      intro reordered deferred flag p hp
      rw [reorderUserPartsAux] at hp
      rcases List.mem_append.mp hp with hm | hm
      · exact Or.inl hm
      · exact Or.inr (Or.inl hm)
  | cons q rest ih =>
      intro reordered deferred flag p hp
      rw [reorderUserPartsAux] at hp
      split at hp
      · rcases ih _ _ _ _ hp with hm | hm | hm
        · rcases List.mem_append.mp hm with h1 | h1
          · exact Or.inl h1
          · exact Or.inr (Or.inr (List.mem_singleton.mp h1 ▸ List.mem_cons_self q rest))
        · exact Or.inr (Or.inl hm)
        · exact Or.inr (Or.inr (List.mem_cons_of_mem _ hm))
      · split at hp
        · rcases ih _ _ _ _ hp with hm | hm | hm
          · rcases List.mem_append.mp hm with h1 | h1
            · exact Or.inl h1
            · exact Or.inr (Or.inr (List.mem_singleton.mp h1 ▸ List.mem_cons_self q rest))
          · exact Or.inr (Or.inl hm)
          · exact Or.inr (Or.inr (List.mem_cons_of_mem _ hm))
        · rcases ih _ _ _ _ hp with hm | hm | hm
          · exact Or.inl hm
          · rcases List.mem_append.mp hm with h1 | h1
            · exact Or.inr (Or.inl h1)
            · exact Or.inr (Or.inr (List.mem_singleton.mp h1 ▸ List.mem_cons_self q rest))
          · exact Or.inr (Or.inr (List.mem_cons_of_mem _ hm))

lemma reorderUserParts_subset (parts : List GPart) (p : GPart)
    (hp : p ∈ reorderUserParts parts) : p ∈ parts := by
  rw [reorderUserParts] at hp
  split at hp
  · rcases reorderUserPartsAux_subset parts [] [] false p hp with hm | hm | hm
    · cases hm
    · cases hm
    · exact hm
  · exact hp

set_option maxHeartbeats 2000000 in
lemma processItem_noFwd_clean (fuel : Nat) (mcpXml : Bool) (role : Str)
    (msgHasFC : Bool) (st : MsgSt) (item : CItem)
    (h : ∀ p ∈ st.parts, p.thoughtSignature = none ∧ p.thought = false) :
    ∀ p ∈ (processItem fuel mcpXml false role msgHasFC st item).parts,
      p.thoughtSignature = none ∧ p.thought = false := by
  intro p hp
  unfold processItem at hp
  repeat'
    first
      | exact h p hp
      | (rcases List.mem_append.mp hp with hm | hm
         · exact h p hm
         · first
             | (rw [List.mem_singleton] at hm
                subst hm
                exact ⟨by simp, rfl⟩)
             | (rcases List.mem_append.mp hm with hm2 | hm2
                · rw [List.mem_singleton] at hm2
                  subst hm2
                  exact ⟨by simp, rfl⟩
                · exact extractInlineData_clean fuel _ p hm2))
      | contradiction
      | dsimp only at hp
      | split at hp

lemma foldl_processItem_clean (fuel : Nat) (mcpXml : Bool) (role : Str) (msgHasFC : Bool)
    (items : List CItem) (st : MsgSt)
    (h : ∀ p ∈ st.parts, p.thoughtSignature = none ∧ p.thought = false) :
    ∀ p ∈ (items.foldl (processItem fuel mcpXml false role msgHasFC) st).parts,
      p.thoughtSignature = none ∧ p.thought = false := by
  induction items generalizing st with
  | nil => exact h
  | cons it rest ih =>
      rw [List.foldl_cons]
      exact ih _ (processItem_noFwd_clean fuel mcpXml role msgHasFC st it h)

lemma processMessage_noFwd_clean (fuel : Nat) (mcpXml : Bool) (fwdDefault : Bool)
    (len msgIndex : Nat) (xst : XSt) (msg : CMsg) (g : GMsg)
    (hidx : msgIndex < len)
    (hg : (processMessage fuel mcpXml fwdDefault (some len) msgIndex xst msg).2 = some g) :
    ∀ p ∈ g.parts, p.thoughtSignature = none ∧ p.thought = false := by
  have hge : decide (msgIndex ≥ len) = false := decide_eq_false (Nat.not_le.mpr hidx)
  unfold processMessage at hg
  dsimp only at hg
  rw [hge, Bool.and_false] at hg
  repeat'
    first
      | (exact Option.noConfusion hg)
      | (exact absurd (by assumption : (false : Bool) = true) (by decide))
      | (injection hg with hg2
         subst hg2
         intro p hp
         dsimp only at hp
         first
           | exact foldl_processItem_clean _ _ _ _ _ _
               (fun q hq => absurd hq (List.not_mem_nil q)) p hp
           | exact foldl_processItem_clean _ _ _ _ _ _
               (fun q hq => absurd hq (List.not_mem_nil q)) p (reorderUserParts_subset _ p hp)
           | (rw [List.mem_singleton] at hp
              subst hp
              exact ⟨rfl, rfl⟩))
      | (dsimp only [Bool.false_and] at hg)
      | split at hg

lemma transformMessagesAux_noFwd_clean (fuel : Nat) (mcpXml : Bool) (fwdDefault : Bool)
    (len : Nat) :
    ∀ (msgs : List CMsg) (i : Nat) (xst : XSt), i + msgs.length ≤ len →
      ∀ g ∈ transformMessagesAux fuel mcpXml fwdDefault (some len) i xst msgs,
        ∀ p ∈ g.parts, p.thoughtSignature = none ∧ p.thought = false := by
  intro msgs
  induction msgs with
  | nil =>
      intro i xst hle g hg
      rw [transformMessagesAux] at hg
      cases hg
  | cons m rest ih =>
      intro i xst hle g hg
      have hi : i < len := by
        have := hle
        simp [List.length_cons] at this
        omega
      rw [transformMessagesAux] at hg
      try dsimp only at hg
      cases hr : (processMessage fuel mcpXml fwdDefault (some len) i xst m).2 with
      | some g0 =>
          rw [hr] at hg
          try dsimp only at hg
          rcases List.mem_cons.mp hg with hEq | hmem
          · subst hEq
            exact processMessage_noFwd_clean fuel mcpXml fwdDefault len i xst m g hi hr
          · exact ih (i + 1) _ (by simp [List.length_cons] at hle ⊢; omega) g hmem
      | none =>
          rw [hr] at hg
          try dsimp only at hg
          exact ih (i + 1) _ (by simp [List.length_cons] at hle ⊢; omega) g hg

/-- C3: transforming with `signatureSegmentStartIndex` equal to the request's
message count (the value the bridge-switch retry passes) makes the
signature-forwarding guard false for every message, so no part of the rebuilt
backend request carries a `thoughtSignature` or a `thought` flag derived from
history. -/
theorem c3_retry_start_index_strips_signatures (fuel : Nat) (mcpXml : Bool) (fwdDefault : Bool)
    (store : List (Str × Str)) (msgs : List CMsg) :
    ∀ g ∈ transformContents fuel mcpXml fwdDefault
        (some (retrySignatureSegmentStartIndex msgs)) store msgs,
      ∀ p ∈ g.parts, p.thoughtSignature = none ∧ p.thought = false := by
  intro g hg
  exact transformMessagesAux_noFwd_clean fuel mcpXml fwdDefault msgs.length msgs 0 _
    (by omega) g hg

set_option maxRecDepth 40000 in
theorem c3_retry_start_index_strips_signatures_witness :
    ({ role := "model".toList,
       parts := [{ text := some "t".toList }, { text := some "ok".toList }] } : GMsg)
      ∈ transformContents 1 false true
          (some (retrySignatureSegmentStartIndex
            [{ role := "user".toList, content := .str "hi".toList },
             { role := "assistant".toList,
               content := .items [.thinking "t".toList "SIG".toList, .text "ok".toList] }]))
          []
          [{ role := "user".toList, content := .str "hi".toList },
           { role := "assistant".toList,
             content := .items [.thinking "t".toList "SIG".toList, .text "ok".toList] }] ∧
    (({ text := some "t".toList } : GPart).thoughtSignature = none ∧
     ({ text := some "t".toList } : GPart).thought = false) :=
  ⟨List.mem_cons_of_mem _ (List.mem_cons_self _ _),
   c3_retry_start_index_strips_signatures 1 false true []
     [{ role := "user".toList, content := .str "hi".toList },
      { role := "assistant".toList,
        content := .items [.thinking "t".toList "SIG".toList, .text "ok".toList] }]
     { role := "model".toList,
       parts := [{ text := some "t".toList }, { text := some "ok".toList }] }
     (List.mem_cons_of_mem _ (List.mem_cons_self _ _))
     { text := some "t".toList }
     (List.mem_cons_self _ _)⟩

lemma processItem_thinking_discard (fuel : Nat) (mcpXml : Bool) (fwd : Bool)
    (role : Str) (msgHasFC : Bool) (st : MsgSt) (tk sig : Str)
    (hsaw : st.saw = true) (htk : tk ≠ []) :
    processItem fuel mcpXml fwd role msgHasFC st (.thinking tk sig) = st := by
  unfold processItem
  dsimp only
  rw [if_neg (by simp [htk]), if_pos hsaw]

lemma processItem_text_cases (fuel : Nat) (mcpXml : Bool) (fwd : Bool)
    (role : Str) (msgHasFC : Bool) (st : MsgSt) (t : Str) :
    processItem fuel mcpXml fwd role msgHasFC st (.text t) = st ∨
    processItem fuel mcpXml fwd role msgHasFC st (.text t) =
      { st with prevWasToolResult := false } ∨
    (processItem fuel mcpXml fwd role msgHasFC st (.text t)).saw = true := by
  unfold processItem
  repeat'
    first
      | exact Or.inl rfl
      | exact Or.inr (Or.inl rfl)
      | exact Or.inr (Or.inr rfl)
      | dsimp only
      | split

lemma processItem_image_cases (fuel : Nat) (mcpXml : Bool) (fwd : Bool)
    (role : Str) (msgHasFC : Bool) (st : MsgSt) (isB64 : Bool) (mt d : Str) :
    processItem fuel mcpXml fwd role msgHasFC st (.image isB64 mt d) =
      { st with prevWasToolResult := false } ∨
    (processItem fuel mcpXml fwd role msgHasFC st (.image isB64 mt d)).saw = true := by
  unfold processItem
  repeat'
    first
      | exact Or.inl rfl
      | exact Or.inr rfl
      | dsimp only
      | split

lemma processItem_toolUse_saw (fuel : Nat) (mcpXml : Bool) (fwd : Bool)
    (role : Str) (msgHasFC : Bool) (st : MsgSt) (id name : Str) (input : JVal)
    (sig : Str) :
    (processItem fuel mcpXml fwd role msgHasFC st (.toolUse id name input sig)).saw
      = true := by
  unfold processItem
  repeat'
    first
      | rfl
      | dsimp only
      | split

lemma processItem_toolResult_saw (fuel : Nat) (mcpXml : Bool) (fwd : Bool)
    (role : Str) (msgHasFC : Bool) (st : MsgSt) (tuid : Str) (content : JVal)
    (isErr : Bool) :
    (processItem fuel mcpXml fwd role msgHasFC st (.toolResult tuid content isErr)).saw
      = true := by
  unfold processItem
  repeat'
    first
      | rfl
      | dsimp only
      | split

lemma processItem_saw_mono (fuel : Nat) (mcpXml : Bool) (fwd : Bool)
    (role : Str) (msgHasFC : Bool) (st : MsgSt) (item : CItem)
    (hsaw : st.saw = true) :
    (processItem fuel mcpXml fwd role msgHasFC st item).saw = true := by
  cases item
  all_goals unfold processItem
  all_goals
    repeat'
      first
        | exact hsaw
        | rfl
        | dsimp only
        | split

set_option maxRecDepth 40000 in
/-- C6: in the content-item loop of `transformClaudeRequestIn`, each of the
non-reasoning items (text, image, tool_use, tool_result) that contributes a
part latches the `saw` flag, the flag is never cleared, and a reasoning item
with non-empty text reaching a latched state is discarded whole; in
particular an assistant turn `[reasoning, text, reasoning]` transforms to
parts for `[reasoning, text]` only. -/
theorem c6_late_reasoning_items_discarded :
    (∀ (fuel : Nat) (mcpXml fwd : Bool) (role : Str) (msgHasFC : Bool)
       (st : MsgSt) (tk sig : Str), st.saw = true → tk ≠ [] →
       processItem fuel mcpXml fwd role msgHasFC st (.thinking tk sig) = st) ∧
    (∀ (fuel : Nat) (mcpXml fwd : Bool) (role : Str) (msgHasFC : Bool)
       (st : MsgSt) (t : Str),
       (processItem fuel mcpXml fwd role msgHasFC st (.text t)).parts ≠ st.parts →
       (processItem fuel mcpXml fwd role msgHasFC st (.text t)).saw = true) ∧
    (∀ (fuel : Nat) (mcpXml fwd : Bool) (role : Str) (msgHasFC : Bool)
       (st : MsgSt) (isB64 : Bool) (mt d : Str),
       (processItem fuel mcpXml fwd role msgHasFC st (.image isB64 mt d)).parts ≠ st.parts →
       (processItem fuel mcpXml fwd role msgHasFC st (.image isB64 mt d)).saw = true) ∧
    (∀ (fuel : Nat) (mcpXml fwd : Bool) (role : Str) (msgHasFC : Bool)
       (st : MsgSt) (id name : Str) (input : JVal) (sig : Str),
       (processItem fuel mcpXml fwd role msgHasFC st (.toolUse id name input sig)).saw = true) ∧
    (∀ (fuel : Nat) (mcpXml fwd : Bool) (role : Str) (msgHasFC : Bool)
       (st : MsgSt) (tuid : Str) (content : JVal) (isErr : Bool),
       (processItem fuel mcpXml fwd role msgHasFC st (.toolResult tuid content isErr)).saw = true) ∧
    (∀ (fuel : Nat) (mcpXml fwd : Bool) (role : Str) (msgHasFC : Bool)
       (st : MsgSt) (item : CItem), st.saw = true →
       (processItem fuel mcpXml fwd role msgHasFC st item).saw = true) ∧
    transformContents 1 false true none []
      [{ role := "assistant".toList,
         content := .items [.thinking "a".toList [], .text "b".toList,
                            .thinking "c".toList []] }] =
    [{ role := "model".toList,
       parts := [{ text := some "a".toList, thought := true },
                 { text := some "b".toList }] }] := by
  refine ⟨processItem_thinking_discard, ?_, ?_,
    processItem_toolUse_saw, processItem_toolResult_saw, processItem_saw_mono, rfl⟩
  · intro fuel mcpXml fwd role msgHasFC st t hne
    rcases processItem_text_cases fuel mcpXml fwd role msgHasFC st t with h | h | h
    · rw [h] at hne
      exact absurd rfl hne
    · rw [h] at hne
      exact absurd rfl hne
    · exact h
  · intro fuel mcpXml fwd role msgHasFC st isB64 mt d hne
    rcases processItem_image_cases fuel mcpXml fwd role msgHasFC st isB64 mt d with h | h
    · rw [h] at hne
      exact absurd rfl hne
    · exact h

theorem c6_late_reasoning_items_discarded_witness :
    (({ parts := [], saw := true, prevWasToolResult := false, pendingSig := none,
        toolIdToName := [], lastUserTask := none, store := [] } : MsgSt).saw = true ∧
     ("z".toList : Str) ≠ [] ∧
     processItem 0 false true "model".toList false
       { parts := [], saw := true, prevWasToolResult := false, pendingSig := none,
         toolIdToName := [], lastUserTask := none, store := [] }
       (.thinking "z".toList []) =
       { parts := [], saw := true, prevWasToolResult := false, pendingSig := none,
         toolIdToName := [], lastUserTask := none, store := [] }) ∧
    (processItem 0 false true "model".toList false
       { parts := [], saw := true, prevWasToolResult := false, pendingSig := none,
         toolIdToName := [], lastUserTask := none, store := [] }
       (.text "b".toList)).saw = true :=
  ⟨⟨rfl, by decide,
    c6_late_reasoning_items_discarded.1 0 false true "model".toList false
      { parts := [], saw := true, prevWasToolResult := false, pendingSig := none,
        toolIdToName := [], lastUserTask := none, store := [] }
      "z".toList [] rfl (by decide)⟩,
   c6_late_reasoning_items_discarded.2.2.2.2.2.1 0 false true "model".toList false
     { parts := [], saw := true, prevWasToolResult := false, pendingSig := none,
       toolIdToName := [], lastUserTask := none, store := [] }
     (.text "b".toList) rfl⟩

lemma map_id_of_mem {α : Type} (l : List α) (f : α → α) (h : ∀ x ∈ l, f x = x) :
    l.map f = l := by
  induction l with
  | nil => rfl
  | cons x xs ih =>
      rw [List.map_cons, h x (List.mem_cons_self _ _),
        ih (fun y hy => h y (List.mem_cons_of_mem _ hy))]

lemma getKey_mem (kvs : List (Str × JVal)) (k : Str) (v : JVal)
    (h : getKey kvs k = some v) : (k, v) ∈ kvs := by
  induction kvs with
  | nil => exact Option.noConfusion h
  | cons kv rest ih =>
      obtain ⟨k', v'⟩ := kv
      rw [getKey] at h
      by_cases he : k' = k
      · rw [if_pos he] at h
        injection h with h2
        subst he
        subst h2
        exact List.mem_cons_self _ _
      · rw [if_neg he] at h
        exact List.mem_cons_of_mem _ (ih h)

lemma jsDedupNoopAux_noop (fuel : Nat) :
    ∀ (xs seen : List JVal), jsDedupNoopAux fuel seen xs = true →
      jsDedupAuxF fuel seen xs = xs := by
  intro xs
  induction xs with
  | nil => intro seen _; rfl
  | cons x rest ih =>
      intro seen h
      rw [jsDedupNoopAux] at h
      rcases (Bool.and_eq_true _ _).mp h with ⟨h1, h2⟩
      rw [jsDedupAuxF, if_neg (by simp at h1 ⊢; exact h1), ih _ h2]

lemma buildValidationsF_nil (fuel : Nat) (kvs : List (Str × JVal))
    (h : ∀ kv ∈ kvs, kv.1 ∉ validationFieldNames) :
    buildValidationsF fuel kvs = [] := by
  rw [buildValidationsF]
  apply List.filterMap_eq_nil_iff.mpr
  intro f hf
  rw [getKey_eq_none_of_keys_ne kvs f (fun kv hkv => fun he => h kv hkv (he ▸ hf))]

lemma upTypeVal_fixed (v : JVal) (h : typeTokenUpper v = true) : upTypeVal v = v := by
  cases v with
  | str s =>
      rw [typeTokenUpper] at h
      rw [upTypeVal, show jsToUpper s = s from by simpa using h]
  | arr items =>
      rw [upTypeVal]
      rw [map_id_of_mem]
      intro it hit
      rw [typeTokenUpper] at h
      have := List.all_eq_true.mp h it hit
      cases it with
      | str s =>
          simp at this
          show JVal.str (jsToUpper s) = JVal.str s
          rw [this]
      | num r => rfl
      | bool b => rfl
      | null => rfl
      | arr a => rfl
      | obj o => rfl
  | num r => rfl
  | bool b => rfl
  | null => rfl
  | obj o => rfl

lemma sanitizedF_obj_all (u : Bool) (fuel : Nat) (kvs : List (Str × JVal))
    (h : sanitizedF u (fuel + 1) (.obj kvs) = true) :
    ((kvs.map Prod.fst).Nodup) ∧
      ∀ kv ∈ kvs, sanEntryOk u fuel (sanitizedF u fuel) kv = true := by
  rw [sanitizedF] at h
  rcases (Bool.and_eq_true _ _).mp h with ⟨h1, h2⟩
  exact ⟨of_decide_eq_true h1, fun kv hkv => List.all_eq_true.mp h2 kv hkv⟩

set_option maxHeartbeats 1000000 in
lemma uppercase_noop :
    ∀ (fuel : Nat) (v : JVal), sanitizedF true fuel v = true →
      ∀ f, uppercaseSchemaTypesF f v = v := by
  intro fuel
  induction fuel with
  | zero =>
      intro v h f
      cases v with
      | str s => cases f <;> rfl
      | num r => cases f <;> rfl
      | bool b => cases f <;> rfl
      | null => cases f <;> rfl
      | arr xs => exact Bool.noConfusion h
      | obj kvs => exact Bool.noConfusion h
  | succ fuel ih =>
      intro v h f
      cases v with
      | str s => cases f <;> rfl
      | num r => cases f <;> rfl
      | bool b => cases f <;> rfl
      | null => cases f <;> rfl
      | arr xs =>
          cases f with
          | zero => rfl
          | succ f2 =>
              show JVal.arr (xs.map (fun x => uppercaseSchemaTypesF f2 x)) = JVal.arr xs
              rw [sanitizedF] at h
              congr 1
              exact map_id_of_mem _ _ (fun x hx =>
                ih x (List.all_eq_true.mp h x hx) f2)
      | obj kvs =>
          cases f with
          | zero => rfl
          | succ f2 =>
              obtain ⟨hnd, hall⟩ := sanitizedF_obj_all true fuel kvs h
              show JVal.obj (kvs.map (upEntry (uppercaseSchemaTypesF f2))) = JVal.obj kvs
              congr 1
              apply map_id_of_mem
              intro kv hkv
              have hok := hall kv hkv
              clear hkv
              obtain ⟨k, v'⟩ := kv
              rw [upEntry]
              dsimp only
              rw [sanEntryOk] at hok
              dsimp only at hok
              by_cases hk : k = "type".toList
              · rw [if_pos hk]
                subst hk
                rw [if_neg (by decide : ¬("type".toList ∈ combinatorNames)),
                    if_neg (by decide : ¬("type".toList = "const".toList)),
                    if_neg (by decide :
                      ¬(("type".toList ∈ removeKeyNames ||
                         "type".toList ∈ validationFieldNames) = true)),
                    if_neg (fun hc =>
                      absurd ((Bool.and_eq_true _ _).mp hc).1 (by decide)),
                    if_pos rfl] at hok
                have ht : typeTokenUpper v' = true := by
                  have := ((Bool.and_eq_true _ _).mp hok).2
                  simpa using this
                rw [upTypeVal_fixed v' ht]
              · rw [if_neg hk]
                by_cases hcomb : k ∈ combinatorNames
                · rw [if_pos hcomb] at hok
                  cases v' with
                  | arr branches =>
                      have hbr : ∀ b ∈ branches, sanitizedF true fuel b = true := by
                        have := ((Bool.and_eq_true _ _).mp hok).1
                        exact fun b hb => List.all_eq_true.mp this b hb
                      refine congrArg (fun w => (k, w)) ?_
                      cases f2 with
                      | zero => rfl
                      | succ f3 =>
                          show JVal.arr (branches.map (fun x => uppercaseSchemaTypesF f3 x))
                            = JVal.arr branches
                          congr 1
                          exact map_id_of_mem _ _ (fun b hb => ih b (hbr b hb) f3)
                  | obj kvs2 =>
                      exact congrArg (fun w => (k, w)) (ih (.obj kvs2) hok f2)
                  | str s => rfl
                  | num r => rfl
                  | bool b => rfl
                  | null => rfl
                · rw [if_neg hcomb] at hok
                  by_cases hconst : k = "const".toList
                  · rw [if_pos hconst] at hok
                    exact absurd hok (by decide)
                  · rw [if_neg hconst] at hok
                    by_cases hrv : (k ∈ removeKeyNames || k ∈ validationFieldNames) = true
                    · rw [if_pos hrv] at hok
                      exact absurd hok (by decide)
                    · rw [if_neg hrv] at hok
                      by_cases hprop : k = "properties".toList
                      · cases v' with
                        | obj props =>
                            rw [if_pos (by simp [hprop])] at hok
                            refine congrArg (fun w => (k, w)) ?_
                            cases f2 with
                            | zero => rfl
                            | succ f3 =>
                                show JVal.obj
                                    (props.map (upEntry (uppercaseSchemaTypesF f3)))
                                  = JVal.obj props
                                congr 1
                                apply map_id_of_mem
                                intro p hp
                                have hpok := List.all_eq_true.mp hok p hp
                                clear hp
                                obtain ⟨pk, pv⟩ := p
                                rcases (Bool.and_eq_true _ _).mp hpok with ⟨hp1, hp2⟩
                                rw [upEntry]
                                dsimp only
                                by_cases hpk : pk = "type".toList
                                · rw [if_pos hpk]
                                  rw [if_pos hpk] at hp2
                                  have hup : typeTokenUpper pv = true := by simpa using hp2
                                  rw [upTypeVal_fixed pv hup]
                                · rw [if_neg hpk]
                                  cases pv with
                                  | obj o =>
                                      exact congrArg (fun w => (pk, w)) (ih (.obj o) hp1 f3)
                                  | arr a =>
                                      exact congrArg (fun w => (pk, w)) (ih (.arr a) hp1 f3)
                                  | str s => rfl
                                  | num r => rfl
                                  | bool b => rfl
                                  | null => rfl
                        | arr a =>
                            rw [if_neg (fun hc =>
                                  Bool.noConfusion ((Bool.and_eq_true _ _).mp hc).2),
                                if_neg hk] at hok
                            by_cases henum : k = "enum".toList
                            · rw [if_pos henum] at hok
                              exact congrArg (fun w => (k, w))
                                (ih (.arr a) ((Bool.and_eq_true _ _).mp hok).1 f2)
                            · rw [if_neg henum] at hok
                              exact congrArg (fun w => (k, w)) (ih (.arr a) hok f2)
                        | str s => rfl
                        | num r => rfl
                        | bool b => rfl
                        | null => rfl
                      · rw [if_neg (fun hc =>
                              absurd ((Bool.and_eq_true _ _).mp hc).1
                                (by simpa using hprop)),
                            if_neg hk] at hok
                        by_cases henum : k = "enum".toList
                        · rw [if_pos henum] at hok
                          cases v' with
                          | arr a =>
                              exact congrArg (fun w => (k, w))
                                (ih (.arr a) ((Bool.and_eq_true _ _).mp hok).1 f2)
                          | obj o =>
                              exact congrArg (fun w => (k, w)) (ih (.obj o) hok f2)
                          | str s => rfl
                          | num r => rfl
                          | bool b => rfl
                          | null => rfl
                        · rw [if_neg henum] at hok
                          cases v' with
                          | arr a =>
                              exact congrArg (fun w => (k, w)) (ih (.arr a) hok f2)
                          | obj o =>
                              exact congrArg (fun w => (k, w)) (ih (.obj o) hok f2)
                          | str s => rfl
                          | num r => rfl
                          | bool b => rfl
                          | null => rfl

lemma sanEntryOk_false_of_validation (u : Bool) (fuel : Nat) (san : JVal → Bool)
    (k : Str) (v : JVal) (hk : k ∈ validationFieldNames) :
    sanEntryOk u fuel san (k, v) = false := by
  rw [validationFieldNames] at hk
  simp only [List.map_cons, List.map_nil, List.mem_cons, List.not_mem_nil, or_false] at hk
  rcases hk with rfl | rfl | rfl | rfl | rfl | rfl | rfl | rfl
  all_goals
    rw [sanEntryOk]
    dsimp only
    rw [if_neg (by decide), if_neg (by decide), if_pos (by decide)]

set_option maxHeartbeats 2000000 in
lemma cleanEntryStep_sanitized (u : Bool) (fuel : Nat) (clean1 : JVal → JVal)
    (hc : ∀ w, sanitizedF u fuel w = true → clean1 w = w)
    (acc1 : List (Str × JVal)) (k : Str) (v : JVal)
    (hok : sanEntryOk u fuel (sanitizedF u fuel) (k, v) = true)
    (hkacc : ∀ kv ∈ acc1, kv.1 ≠ k) :
    cleanEntryStep clean1 fuel [] (acc1, none) (k, v) = (acc1 ++ [(k, v)], none) := by
  unfold cleanEntryStep
  dsimp only
  rw [sanEntryOk] at hok
  dsimp only at hok
  by_cases hcomb : k ∈ combinatorNames
  · rw [if_pos hcomb]
    rw [if_pos hcomb] at hok
    cases v with
    | arr branches =>
        have hbr := ((Bool.and_eq_true _ _).mp hok).1
        have hng := ((Bool.and_eq_true _ _).mp hok).2
        have hmap : branches.map clean1 = branches :=
          map_id_of_mem _ _ (fun b hb => hc b (List.all_eq_true.mp hbr b hb))
        dsimp only
        rw [hmap]
        rw [if_neg (by intro hg; rw [hg] at hng; exact Bool.noConfusion hng)]
        rw [setKey_eq_append_of_not_mem acc1 k _ hkacc]
    | obj kvs2 =>
        dsimp only
        rw [setKey_eq_append_of_not_mem acc1 k _ hkacc]
    | str s =>
        dsimp only
        rw [setKey_eq_append_of_not_mem acc1 k _ hkacc]
    | num r =>
        dsimp only
        rw [setKey_eq_append_of_not_mem acc1 k _ hkacc]
    | bool b =>
        dsimp only
        rw [setKey_eq_append_of_not_mem acc1 k _ hkacc]
    | null =>
        dsimp only
        rw [setKey_eq_append_of_not_mem acc1 k _ hkacc]
  · rw [if_neg hcomb]
    rw [if_neg hcomb] at hok
    by_cases hconst : k = "const".toList
    · rw [if_pos hconst] at hok
      exact absurd hok (by decide)
    · rw [if_neg hconst]
      rw [if_neg hconst] at hok
      by_cases hrv : (k ∈ removeKeyNames || k ∈ validationFieldNames) = true
      · rw [if_pos hrv] at hok
        exact absurd hok (by decide)
      · rw [if_neg hrv]
        rw [if_neg hrv] at hok
        cases v with
        | obj props =>
            by_cases hprop : k = "properties".toList
            · rw [if_pos (by simp [hprop])]
              rw [if_pos (by simp [hprop])] at hok
              have hmap : props.map (fun p =>
                  (p.1, match p.2 with
                        | JVal.obj _ => clean1 p.2
                        | JVal.arr _ => clean1 p.2
                        | _ => p.2)) = props := by
                apply map_id_of_mem
                intro p hp
                have hpok := List.all_eq_true.mp hok p hp
                have hp1 := ((Bool.and_eq_true _ _).mp hpok).1
                obtain ⟨pk, pv⟩ := p
                cases pv with
                | obj o => exact congrArg (fun w => (pk, w)) (hc (.obj o) hp1)
                | arr a => exact congrArg (fun w => (pk, w)) (hc (.arr a) hp1)
                | str s => rfl
                | num r => rfl
                | bool b => rfl
                | null => rfl
              dsimp only
              rw [hmap, setKey_eq_append_of_not_mem acc1 k _ hkacc]
            · rw [if_neg (fun hc2 =>
                    absurd ((Bool.and_eq_true _ _).mp hc2).1 (by simpa using hprop))]
              rw [if_neg (fun hc2 =>
                    absurd ((Bool.and_eq_true _ _).mp hc2).1 (by simpa using hprop))] at hok
              rw [if_neg (fun hc2 =>
                    Bool.noConfusion ((Bool.and_eq_true _ _).mp hc2).2)]
              rw [if_neg (fun hc2 =>
                    absurd ((Bool.and_eq_true _ _).mp hc2).2 (by decide))]
              have hsan : sanitizedF u fuel (.obj props) = true := by
                by_cases hk : k = "type".toList
                · rw [if_pos hk] at hok
                  exact ((Bool.and_eq_true _ _).mp hok).1
                · rw [if_neg hk] at hok
                  by_cases henum : k = "enum".toList
                  · rw [if_pos henum] at hok
                    exact hok
                  · rw [if_neg henum] at hok
                    exact hok
              dsimp only
              rw [hc (.obj props) hsan, setKey_eq_append_of_not_mem acc1 k _ hkacc]
        | arr es =>
            rw [if_neg (fun hc2 =>
                  Bool.noConfusion ((Bool.and_eq_true _ _).mp hc2).2)]
            rw [if_neg (fun hc2 =>
                  Bool.noConfusion ((Bool.and_eq_true _ _).mp hc2).2)] at hok
            have hknt : ¬(k = "type".toList) := by
              intro hk
              rw [if_pos hk] at hok
              exact Bool.noConfusion ((Bool.and_eq_true _ _).mp hok).1
            rw [if_neg (fun hc2 =>
                  absurd ((Bool.and_eq_true _ _).mp hc2).1 (by simpa using hknt))]
            rw [if_neg (fun hc2 =>
                  absurd ((Bool.and_eq_true _ _).mp hc2).2 (by decide))]
            rw [if_neg hknt] at hok
            have hsan : sanitizedF u fuel (.arr es) = true := by
              by_cases henum : k = "enum".toList
              · rw [if_pos henum] at hok
                exact ((Bool.and_eq_true _ _).mp hok).1
              · rw [if_neg henum] at hok
                exact hok
            dsimp only
            rw [hc (.arr es) hsan, setKey_eq_append_of_not_mem acc1 k _ hkacc]
        | str s =>
            rw [if_neg (fun hc2 =>
                  Bool.noConfusion ((Bool.and_eq_true _ _).mp hc2).2)]
            rw [if_neg (fun hc2 =>
                  Bool.noConfusion ((Bool.and_eq_true _ _).mp hc2).2)]
            rw [if_neg (fun hc2 =>
                  absurd ((Bool.and_eq_true _ _).mp hc2).2 (by decide))]
            dsimp only
            rw [setKey_eq_append_of_not_mem acc1 k _ hkacc]
        | num r =>
            rw [if_neg (fun hc2 =>
                  Bool.noConfusion ((Bool.and_eq_true _ _).mp hc2).2)]
            rw [if_neg (fun hc2 =>
                  Bool.noConfusion ((Bool.and_eq_true _ _).mp hc2).2)]
            rw [if_neg (fun hc2 =>
                  absurd ((Bool.and_eq_true _ _).mp hc2).2 (by decide))]
            dsimp only
            rw [setKey_eq_append_of_not_mem acc1 k _ hkacc]
        | bool b =>
            rw [if_neg (fun hc2 =>
                  Bool.noConfusion ((Bool.and_eq_true _ _).mp hc2).2)]
            rw [if_neg (fun hc2 =>
                  Bool.noConfusion ((Bool.and_eq_true _ _).mp hc2).2)]
            rw [if_neg (fun hc2 =>
                  absurd ((Bool.and_eq_true _ _).mp hc2).2 (by decide))]
            dsimp only
            rw [setKey_eq_append_of_not_mem acc1 k _ hkacc]
        | null =>
            rw [if_neg (fun hc2 =>
                  Bool.noConfusion ((Bool.and_eq_true _ _).mp hc2).2)]
            rw [if_neg (fun hc2 =>
                  Bool.noConfusion ((Bool.and_eq_true _ _).mp hc2).2)]
            rw [if_neg (fun hc2 =>
                  absurd ((Bool.and_eq_true _ _).mp hc2).2 (by decide))]
            dsimp only
            rw [setKey_eq_append_of_not_mem acc1 k _ hkacc]

lemma foldl_cleanEntryStep_sanitized (u : Bool) (fuel : Nat) (clean1 : JVal → JVal)
    (hc : ∀ w, sanitizedF u fuel w = true → clean1 w = w) :
    ∀ (l : List (Str × JVal)) (acc1 : List (Str × JVal)),
      (∀ kv ∈ l, sanEntryOk u fuel (sanitizedF u fuel) kv = true) →
      (∀ kv ∈ l, ∀ kv2 ∈ acc1, kv2.1 ≠ kv.1) →
      List.Pairwise (fun a b : Str × JVal => a.1 ≠ b.1) l →
      l.foldl (cleanEntryStep clean1 fuel []) (acc1, none) = (acc1 ++ l, none) := by
  intro l
  induction l with
  | nil =>
      intro acc1 _ _ _
      rw [List.append_nil]
      rfl
  | cons kv rest ih =>
      intro acc1 hok hfresh hpw
      obtain ⟨k, v⟩ := kv
      rw [List.foldl_cons,
        cleanEntryStep_sanitized u fuel clean1 hc acc1 k v
          (hok _ (List.mem_cons_self _ _))
          (fun kv2 h2 => hfresh _ (List.mem_cons_self _ _) kv2 h2),
        ih (acc1 ++ [(k, v)])
          (fun kv2 h2 => hok kv2 (List.mem_cons_of_mem _ h2))
          ?fresh (List.Pairwise.sublist (List.sublist_cons_self _ _) hpw)]
      · rw [List.append_assoc]
        rfl
      case fresh =>
        intro kv2 h2 kv3 h3
        rcases List.mem_append.mp h3 with h4 | h4
        · exact hfresh kv2 (List.mem_cons_of_mem _ h2) kv3 h4
        · rw [List.mem_singleton] at h4
          subst h4
          exact (List.pairwise_cons.mp hpw).1 kv2 h2

lemma enumDedupPost_noop (u : Bool) (fuel : Nat) (kvs : List (Str × JVal))
    (hall : ∀ kv ∈ kvs, sanEntryOk u fuel (sanitizedF u fuel) kv = true) :
    enumDedupPost fuel kvs = kvs := by
  rw [enumDedupPost]
  cases hg : getKey kvs "enum".toList with
  | none => rfl
  | some v =>
      have hok := hall _ (getKey_mem _ _ _ hg)
      rw [sanEntryOk] at hok
      dsimp only at hok
      rw [if_neg (by decide : ¬("enum".toList ∈ combinatorNames)),
          if_neg (by decide : ¬("enum".toList = "const".toList)),
          if_neg (by decide :
            ¬(("enum".toList ∈ removeKeyNames ||
               "enum".toList ∈ validationFieldNames) = true)),
          if_neg (fun hc2 =>
            absurd ((Bool.and_eq_true _ _).mp hc2).1 (by decide)),
          if_neg (by decide : ¬("enum".toList = "type".toList)),
          if_pos rfl] at hok
      cases v with
      | arr es =>
          dsimp only at hok ⊢
          have hnoop := ((Bool.and_eq_true _ _).mp hok).2
          by_cases hlen : es.length > 1
          · rw [if_pos hlen]
            rw [jsDedupF, jsDedupNoopAux_noop fuel es [] hnoop]
            exact setKey_eq_self_of_getKey kvs "enum".toList (.arr es) hg
          · rw [if_neg hlen]
      | str s =>
          dsimp only at hok ⊢
          rw [if_neg (by
            have := of_decide_eq_true hok
            omega)]
      | num r => rfl
      | bool b => rfl
      | null => rfl
      | obj o => rfl

lemma descPost_nil_noop (c : List (Str × JVal)) : descPost [] c = c := by
  rw [descPost, if_neg (by simp)]

set_option maxHeartbeats 1000000 in
lemma sanitized_clean_fix :
    ∀ (fuel : Nat) (u : Bool) (v : JVal), sanitizedF u fuel v = true →
      cleanJsonSchemaF fuel u v = v := by
  intro fuel
  induction fuel with
  | zero => intro u v h; rfl
  | succ fuel ih =>
      intro u v h
      cases v with
      | str s => rfl
      | num r => rfl
      | bool b => rfl
      | null => rfl
      | arr xs =>
          show JVal.arr (xs.map (fun x => cleanJsonSchemaF fuel u x)) = JVal.arr xs
          rw [sanitizedF] at h
          congr 1
          exact map_id_of_mem _ _ (fun x hx => ih u x (List.all_eq_true.mp h x hx))
      | obj kvs =>
          obtain ⟨hnd, hall⟩ := sanitizedF_obj_all u fuel kvs h
          have hvalid : buildValidationsF fuel kvs = [] := by
            apply buildValidationsF_nil
            intro kv hkv hmem
            obtain ⟨k, v0⟩ := kv
            have := hall _ hkv
            rw [sanEntryOk_false_of_validation u fuel _ k v0 hmem] at this
            exact Bool.noConfusion this
          have hfold : kvs.foldl
              (cleanEntryStep (fun w => cleanJsonSchemaF fuel u w) fuel []) ([], none)
              = (kvs, none) := by
            have := foldl_cleanEntryStep_sanitized u fuel
              (fun w => cleanJsonSchemaF fuel u w) (fun w hw => ih u w hw) kvs []
              hall (fun kv _ kv2 h2 => absurd h2 (List.not_mem_nil kv2))
              ((List.pairwise_map.mp hnd).imp (fun hne => hne))
            simpa using this
          rw [cleanJsonSchemaF_obj_eq, hvalid, hfold]
          dsimp only
          simp only [constPost]
          rw [enumDedupPost_noop u fuel kvs hall, descPost_nil_noop]
          cases u with
          | false => rfl
          | true => exact uppercase_noop (fuel + 1) (.obj kvs) h (fuel + 2)

/-- C8 (counterexample): an input meeting the spec's conditions — no `const`,
no removed or validation-lifted keyword, no type token at all — whose
duplicate `enum` entries make the sanitizer return a different tree. -/
theorem c8_counterexample :
    cleanJsonSchemaF 1 false
        (.obj [("enum".toList, .arr [.str "x".toList, .str "x".toList])]) =
      .obj [("enum".toList, .arr [.str "x".toList])] ∧
    JVal.obj [("enum".toList, .arr [.str "x".toList])] ≠
      JVal.obj [("enum".toList, .arr [.str "x".toList, .str "x".toList])] :=
  ⟨rfl, by simp⟩

/-- C8 (amended): the sanitizer is the identity on `sanitizedF`-trees: those
with no `const`, removed or validation-lifted keywords, no `type` union
arrays, type tokens already in the output casing, no flattenable
`anyOf`/`oneOf` of simple enums, duplicate-free `enum` arrays and
duplicate-free keys, recursively. -/
theorem c8_idempotent_on_sanitized (fuel : Nat) (u : Bool) (v : JVal)
    (h : sanitizedF u fuel v = true) : cleanJsonSchemaF fuel u v = v :=
  sanitized_clean_fix fuel u v h

theorem c8_idempotent_on_sanitized_witness :
    sanitizedF true 1
        (.obj [("type".toList, .str "STRING".toList),
               ("description".toList, .str "d".toList)]) = true ∧
    cleanJsonSchemaF 1 true
        (.obj [("type".toList, .str "STRING".toList),
               ("description".toList, .str "d".toList)]) =
      .obj [("type".toList, .str "STRING".toList),
            ("description".toList, .str "d".toList)] :=
  ⟨by decide,
   c8_idempotent_on_sanitized 1 true _ (by decide)⟩

lemma processFunctionCall_blockStart (fuel : Nat) (st : SState) (fc : FunctionCall)
    (sig : Option Str) :
    ∃ idx tid, SEvent.blockStart idx (.toolUseB tid fc.name (.obj []) sig)
      ∈ (processFunctionCall fuel st fc sig).2 := by
  unfold processFunctionCall startBlock
  dsimp only
  exact ⟨_, _, List.mem_append_left _ (List.mem_append_right _ (List.mem_singleton_self _))⟩

lemma processPart_functionCall_attaches (fuel : Nat) (st : SState) (fc : FunctionCall)
    (sig : Option Str) :
    ∃ idx tid, SEvent.blockStart idx (.toolUseB tid fc.name (.obj []) sig)
      ∈ (processPart fuel st { functionCall := some fc, thoughtSignature := sig }).2 := by
  unfold processPart
  dsimp only
  split
  · split
    · obtain ⟨idx, tid, hm⟩ := processFunctionCall_blockStart fuel _ fc sig
      exact ⟨idx, tid, List.mem_append_right _ hm⟩
    · obtain ⟨idx, tid, hm⟩ := processFunctionCall_blockStart fuel _ fc sig
      exact ⟨idx, tid, List.mem_append_right _ hm⟩
  · obtain ⟨idx, tid, hm⟩ := processFunctionCall_blockStart fuel _ fc sig
    exact ⟨idx, tid, List.mem_append_right _ hm⟩

lemma nsProcessPart_functionCall_attaches (st : NState) (fc : FunctionCall)
    (sig : Option Str) :
    ∃ tid args, NSBlock.toolUseB tid fc.name args sig
      ∈ (nsProcessPart st { functionCall := some fc, thoughtSignature := sig }).contentBlocks := by
  unfold nsProcessPart
  dsimp only
  repeat' split
  all_goals exact ⟨_, _, List.mem_append_right _ (List.mem_singleton_self _)⟩

lemma processPart_thinking_attaches (fuel : Nat) (st : SState) (t : Str) (s : Str) :
    (processPart fuel st
      { text := some t, thought := true, thoughtSignature := some s }).1.pendingSig
      = some s := by
  unfold processPart
  dsimp only
  repeat'
    first
      | rfl
      | (exact absurd (by assumption) (by simp))
      | dsimp only
      | split

lemma endBlock_flushes_pendingSig (st : SState) (s : Str)
    (h1 : st.blockType = .thinking) (h2 : st.pendingSig = some s) :
    (endBlock st).2 = [SEvent.blockDelta st.blockIndex (.signatureDelta s),
                       SEvent.blockStop st.blockIndex] := by
  unfold endBlock
  rw [h1]
  dsimp only
  rw [if_pos rfl, h2]
  rfl

lemma nsProcessPart_thinking_attaches (st : NState) (t : Str) (s : Str) :
    (nsProcessPart st
      { text := some t, thought := true, thoughtSignature := some s }).thinkingSignature
      = some s := by
  unfold nsProcessPart
  dsimp only
  repeat'
    first
      | rfl
      | (exact absurd (by assumption) (by simp))
      | dsimp only
      | split

lemma nsFlushThinking_emits (st : NState) (s : Str)
    (h : st.thinkingSignature = some s) :
    (nsFlushThinking st).contentBlocks =
      st.contentBlocks ++ [NSBlock.thinkingB st.thinkingBuilder (some s)] := by
  unfold nsFlushThinking
  rw [if_neg (by simp [h])]
  dsimp only
  rw [h]

lemma processPart_holds_token (fuel : Nat) (st : SState) (s : Str) :
    processPart fuel st { text := some [], thoughtSignature := some s } =
      ({ st with trailingSignature := some s }, []) := rfl

lemma nsProcessPart_holds_token (st : NState) (s : Str) :
    nsProcessPart st { text := some [], thoughtSignature := some s } =
      { st with trailingSignature := some s } := rfl

lemma endBlock_hasThinking (st : SState) :
    (endBlock st).1.hasThinking = st.hasThinking := by
  unfold endBlock
  split <;> rfl

lemma endBlock_events_all (st : SState) (p : SEvent → Bool)
    (hd : ∀ i d, p (.blockDelta i d) = true) (hs : ∀ i, p (.blockStop i) = true) :
    (endBlock st).2.all p = true := by
  unfold endBlock
  repeat' split
  all_goals
    first
      | rfl
      | simp only [List.all_append, List.all_cons, List.all_nil, hd, hs,
          Bool.and_true, Bool.and_self]

lemma startBlock_hasThinking (st : SState) (ty : BlockTy) (b : CBlock) :
    (startBlock st ty b).1.hasThinking = st.hasThinking := by
  unfold startBlock
  dsimp only
  split
  · exact endBlock_hasThinking st
  · rfl

lemma startBlock_events_all (st : SState) (ty : BlockTy) (b : CBlock) (p : SEvent → Bool)
    (hd : ∀ i d, p (.blockDelta i d) = true) (hs : ∀ i, p (.blockStop i) = true)
    (hb : ∀ i, p (.blockStart i b) = true) :
    (startBlock st ty b).2.all p = true := by
  unfold startBlock
  dsimp only
  split
  · simp [List.all_append, endBlock_events_all st p hd hs, hb]
  · simp [hb]

lemma processText_hasThinking (st : SState) (t : Str) :
    (processText st t).1.hasThinking = st.hasThinking := by
  unfold processText
  repeat'
    first
      | rfl
      | (exact startBlock_hasThinking st .text (.textB []))
      | dsimp only
      | split

lemma processText_events_all (st : SState) (t : Str) (p : SEvent → Bool)
    (hd : ∀ i d, p (.blockDelta i d) = true) (hs : ∀ i, p (.blockStop i) = true)
    (hb : ∀ i, p (.blockStart i (.textB [])) = true) :
    (processText st t).2.all p = true := by
  unfold processText
  repeat' split
  all_goals try dsimp only
  all_goals
    first
      | rfl
      | simp only [List.all_cons, List.all_nil, hd, Bool.and_true, Bool.and_self]
      | (rw [List.all_append, startBlock_events_all st .text (.textB []) p hd hs hb]
         simp only [List.all_cons, List.all_nil, hd, Bool.and_true, Bool.true_and])

lemma processFunctionCall_hasThinking (fuel : Nat) (st : SState) (fc : FunctionCall)
    (sig : Option Str) :
    (processFunctionCall fuel st fc sig).1.hasThinking = st.hasThinking := by
  unfold processFunctionCall
  dsimp only
  split
  · exact startBlock_hasThinking _ _ _
  · exact startBlock_hasThinking _ _ _

lemma processFunctionCall_events_all (fuel : Nat) (st : SState) (fc : FunctionCall)
    (sig : Option Str) (p : SEvent → Bool)
    (hd : ∀ i d, p (.blockDelta i d) = true) (hs : ∀ i, p (.blockStop i) = true)
    (hb : ∀ i tid, p (.blockStart i (.toolUseB tid fc.name (.obj []) sig)) = true) :
    (processFunctionCall fuel st fc sig).2.all p = true := by
  unfold processFunctionCall
  dsimp only
  repeat' split
  all_goals try dsimp only
  all_goals
    rw [List.all_append, startBlock_events_all _ .function _ p hd hs (fun i => hb i _)]
  all_goals
    first
      | rfl
      | simp only [List.all_cons, List.all_nil, hd, Bool.and_true, Bool.true_and]

set_option maxHeartbeats 1000000 in
lemma processPart_no_thought (fuel : Nat) (st : SState) (part : GPart)
    (hp : part.thought = false) (h1 : st.hasThinking = false) :
    (processPart fuel st part).1.hasThinking = false ∧
    (processPart fuel st part).2.all (fun e =>
      match e with
      | SEvent.blockStart _ (CBlock.thinkingB _ _) => false
      | _ => true) = true := by
  obtain ⟨txt, th, sig, fc, fres, inl⟩ := part
  dsimp only at hp
  subst hp
  unfold processPart
  dsimp only
  repeat' split
  all_goals try exact absurd (by assumption : st.hasThinking = true) (by simp [h1])
  all_goals try exact absurd (by assumption : false = true) (by decide)
  all_goals try (exfalso; simp_all; done)
  all_goals constructor
  all_goals try dsimp only
  all_goals
    first
      | rfl
      | exact h1
      | (rw [processFunctionCall_hasThinking]
         first
           | exact h1
           | (dsimp only; exact h1))
      | (rw [processText_hasThinking]
         first
           | exact h1
           | (dsimp only; exact h1))
      | (apply processFunctionCall_events_all <;> (intros; rfl))
      | (apply processText_events_all <;> (intros; rfl))

set_option maxHeartbeats 1000000 in
lemma emitFinish_no_thinking_events (st : SState) (fr : Str) (us : UsageMeta)
    (h1 : st.hasThinking = false) :
    (emitFinish st fr us).2.all (fun e =>
      match e with
      | SEvent.blockStart _ (CBlock.thinkingB _ _) => false
      | _ => true) = true := by
  unfold emitFinish
  dsimp only
  have hEB : (endBlock st).1.hasThinking = false := by
    rw [endBlock_hasThinking]
    exact h1
  have hebev : (endBlock st).2.all (fun e =>
      match e with
      | SEvent.blockStart _ (CBlock.thinkingB _ _) => false
      | _ => true) = true :=
    endBlock_events_all st _ (fun i d => rfl) (fun i => rfl)
  repeat' split
  all_goals try
    (exact absurd (by assumption : (endBlock st).1.hasThinking = true) (by simp [hEB]))
  all_goals simp [List.all_append, hebev]

set_option maxHeartbeats 1000000 in
lemma streamRun_no_thought (fuel : Nat) (parts : List GPart) (fr : Str) (us : UsageMeta)
    (h : parts.all (fun p => !p.thought) = true) :
    (streamRun fuel parts fr us).all (fun e =>
      match e with
      | SEvent.blockStart _ (CBlock.thinkingB _ _) => false
      | _ => true) = true := by
  unfold streamRun
  dsimp only
  have hinv : ∀ (ps : List GPart) (acc : SState × List SEvent),
      (∀ p ∈ ps, p.thought = false) → acc.1.hasThinking = false →
      acc.2.all (fun e =>
        match e with
        | SEvent.blockStart _ (CBlock.thinkingB _ _) => false
        | _ => true) = true →
      ((ps.foldl (fun acc p =>
          ((processPart fuel acc.1 p).1, acc.2 ++ (processPart fuel acc.1 p).2)) acc).1.hasThinking
         = false ∧
       (ps.foldl (fun acc p =>
          ((processPart fuel acc.1 p).1, acc.2 ++ (processPart fuel acc.1 p).2)) acc).2.all
          (fun e =>
            match e with
            | SEvent.blockStart _ (CBlock.thinkingB _ _) => false
            | _ => true) = true) := by
    intro ps
    induction ps with
    | nil => intro acc _ ha hb; exact ⟨ha, hb⟩
    | cons p rest ih =>
        intro acc hps ha hb
        rw [List.foldl_cons]
        obtain ⟨hA, hB⟩ :=
          processPart_no_thought fuel acc.1 p (hps p (List.mem_cons_self _ _)) ha
        exact ih _ (fun q hq => hps q (List.mem_cons_of_mem _ hq)) hA
          (by simp [List.all_append, hb, hB])
  have hall : ∀ p ∈ parts, p.thought = false := by
    intro p hp
    simpa using List.all_eq_true.mp h p hp
  obtain ⟨hA, hB⟩ := hinv parts ({}, []) hall rfl rfl
  simp [List.all_append, hB, emitFinish_no_thinking_events _ fr us hA]

set_option maxHeartbeats 1000000 in
lemma nsProcessPart_no_thought (st : NState) (part : GPart)
    (hp : part.thought = false) (h1 : st.hasThinking = false)
    (h2 : st.thinkingBuilder = []) (h3 : st.thinkingSignature = none)
    (h4 : st.contentBlocks.all (fun b =>
      match b with
      | NSBlock.thinkingB _ _ => false
      | _ => true) = true) :
    (nsProcessPart st part).hasThinking = false ∧
    (nsProcessPart st part).thinkingBuilder = [] ∧
    (nsProcessPart st part).thinkingSignature = none ∧
    (nsProcessPart st part).contentBlocks.all (fun b =>
      match b with
      | NSBlock.thinkingB _ _ => false
      | _ => true) = true := by
  have hFT : nsFlushThinking st = st := by
    unfold nsFlushThinking
    rw [if_pos (by simp [h2, h3])]
  obtain ⟨txt, th, sig, fc, fres, inl⟩ := part
  dsimp only at hp
  subst hp
  unfold nsProcessPart
  dsimp only
  rw [hFT]
  unfold nsFlushText
  try dsimp only
  repeat' split
  all_goals try (exact absurd (by assumption : st.hasThinking = true) (by simp [h1]))
  all_goals try (exact absurd (by assumption : false = true) (by decide))
  all_goals try (exfalso; simp_all; done)
  all_goals refine ⟨?_, ?_, ?_, ?_⟩
  all_goals try dsimp only
  all_goals
    first
      | rfl
      | exact h1
      | exact h2
      | exact h3
      | exact h4
      | simp [List.all_append, h4]

set_option maxHeartbeats 1000000 in
lemma nsProcess_no_thought (parts : List GPart) (fr : Str)
    (h : parts.all (fun p => !p.thought) = true) :
    (nsProcess parts fr).1.all (fun b =>
      match b with
      | NSBlock.thinkingB _ _ => false
      | _ => true) = true := by
  unfold nsProcess
  dsimp only
  have hpre : parts.any (fun p => p.thought) = false := by
    rw [List.any_eq_false]
    intro p hp
    simpa using List.all_eq_true.mp h p hp
  rw [hpre]
  have hall : ∀ p ∈ parts, p.thought = false := by
    intro p hp
    simpa using List.all_eq_true.mp h p hp
  have hinv : ∀ (ps : List GPart) (st : NState),
      (∀ p ∈ ps, p.thought = false) →
      st.hasThinking = false → st.thinkingBuilder = [] → st.thinkingSignature = none →
      st.contentBlocks.all (fun b =>
        match b with
        | NSBlock.thinkingB _ _ => false
        | _ => true) = true →
      ((ps.foldl nsProcessPart st).hasThinking = false ∧
       (ps.foldl nsProcessPart st).thinkingBuilder = [] ∧
       (ps.foldl nsProcessPart st).thinkingSignature = none ∧
       (ps.foldl nsProcessPart st).contentBlocks.all (fun b =>
         match b with
         | NSBlock.thinkingB _ _ => false
         | _ => true) = true) := by
    intro ps
    induction ps with
    | nil => intro st _ hA hB hC hD; exact ⟨hA, hB, hC, hD⟩
    | cons p rest ih =>
        intro st hps hA hB hC hD
        rw [List.foldl_cons]
        obtain ⟨hA2, hB2, hC2, hD2⟩ :=
          nsProcessPart_no_thought st p (hps p (List.mem_cons_self _ _)) hA hB hC hD
        exact ih _ (fun q hq => hps q (List.mem_cons_of_mem _ hq)) hA2 hB2 hC2 hD2
  obtain ⟨hA, hB, hC, hD⟩ := hinv parts { hasThinking := false } hall rfl rfl rfl rfl
  have hFT : nsFlushThinking (parts.foldl nsProcessPart { hasThinking := false }) =
      parts.foldl nsProcessPart { hasThinking := false } := by
    unfold nsFlushThinking
    rw [if_pos (by simp [hB, hC])]
  rw [hFT]
  unfold nsFlushText
  try dsimp only
  repeat' split
  all_goals try (exfalso; simp_all; done)
  all_goals try dsimp only
  all_goals
    first
      | exact hD
      | simp [List.all_append, hD]

set_option maxRecDepth 40000 in
/-- C1 (counterexample): a candidate whose parts are an empty text part
carrying a continuation token, a plain text part, and then a genuine
reasoning part.  The response contains a genuine reasoning part, yet the
streaming processor emits no `signature_delta` carrying the held token — the
token is dropped — while the non-streaming processor (whose pre-scan sees
the later reasoning part) does materialise the zero-length thinking block. -/
theorem c1_counterexample :
    (([{ text := some [], thoughtSignature := some "SIG".toList },
       { text := some "x".toList },
       { text := some "r".toList, thought := true }] : List GPart).any
        (fun p => p.thought)) = true ∧
    ((streamRun 1
        [{ text := some [], thoughtSignature := some "SIG".toList },
         { text := some "x".toList },
         { text := some "r".toList, thought := true }]
        "STOP".toList {}).all
      (fun e =>
        match e with
        | SEvent.blockDelta _ (CDelta.signatureDelta s) => decide (s ≠ "SIG".toList)
        | _ => true)) = true ∧
    ((nsProcess
        [{ text := some [], thoughtSignature := some "SIG".toList },
         { text := some "x".toList },
         { text := some "r".toList, thought := true }]
        "STOP".toList).1.any
      (fun b =>
        match b with
        | NSBlock.thinkingB th (some s) => th.isEmpty && decide (s = "SIG".toList)
        | _ => false)) = true :=
  ⟨by decide, by decide, by decide⟩

set_option maxRecDepth 40000 in
/-- C1 (amended): tokens on reasoning parts and function-call parts stay on
their blocks in both processors; a token on an empty non-thought text part is
held; with no reasoning part at all neither processor emits any thinking
block (held tokens are dropped); and the held token is materialised as a
zero-length thinking block when reasoning precedes it (streaming) or occurs
anywhere (non-streaming, by pre-scan) — not, as the spec claims for the
streaming processor, whenever reasoning occurs anywhere in the response. -/
theorem c1_signature_routing_amended :
    (∀ (fuel : Nat) (st : SState) (fc : FunctionCall) (sig : Option Str),
      ∃ idx tid, SEvent.blockStart idx (.toolUseB tid fc.name (.obj []) sig)
        ∈ (processPart fuel st { functionCall := some fc, thoughtSignature := sig }).2) ∧
    (∀ (st : NState) (fc : FunctionCall) (sig : Option Str),
      ∃ tid args, NSBlock.toolUseB tid fc.name args sig
        ∈ (nsProcessPart st { functionCall := some fc, thoughtSignature := sig }).contentBlocks) ∧
    (∀ (fuel : Nat) (st : SState) (t s : Str),
      (processPart fuel st
        { text := some t, thought := true, thoughtSignature := some s }).1.pendingSig = some s) ∧
    (∀ (st : SState) (s : Str), st.blockType = .thinking → st.pendingSig = some s →
      (endBlock st).2 = [SEvent.blockDelta st.blockIndex (.signatureDelta s),
                         SEvent.blockStop st.blockIndex]) ∧
    (∀ (st : NState) (t s : Str),
      (nsProcessPart st
        { text := some t, thought := true, thoughtSignature := some s }).thinkingSignature
        = some s) ∧
    (∀ (st : NState) (s : Str), st.thinkingSignature = some s →
      (nsFlushThinking st).contentBlocks =
        st.contentBlocks ++ [NSBlock.thinkingB st.thinkingBuilder (some s)]) ∧
    (∀ (fuel : Nat) (st : SState) (s : Str),
      processPart fuel st { text := some [], thoughtSignature := some s } =
        ({ st with trailingSignature := some s }, [])) ∧
    (∀ (st : NState) (s : Str),
      nsProcessPart st { text := some [], thoughtSignature := some s } =
        { st with trailingSignature := some s }) ∧
    (∀ (fuel : Nat) (parts : List GPart) (fr : Str) (us : UsageMeta),
      parts.all (fun p => !p.thought) = true →
      (streamRun fuel parts fr us).all (fun e =>
        match e with
        | SEvent.blockStart _ (CBlock.thinkingB _ _) => false
        | _ => true) = true) ∧
    (∀ (parts : List GPart) (fr : Str),
      parts.all (fun p => !p.thought) = true →
      (nsProcess parts fr).1.all (fun b =>
        match b with
        | NSBlock.thinkingB _ _ => false
        | _ => true) = true) ∧
    (nsProcess
        [{ text := some "r".toList, thought := true },
         { text := some [], thoughtSignature := some "SIG".toList }] "STOP".toList).1 =
      [NSBlock.thinkingB "r".toList none, NSBlock.thinkingB [] (some "SIG".toList)] ∧
    ((streamRun 1
        [{ text := some "r".toList, thought := true },
         { text := some [], thoughtSignature := some "SIG".toList }]
        "STOP".toList {}).any
      (fun e =>
        match e with
        | SEvent.blockDelta _ (CDelta.signatureDelta s) => decide (s = "SIG".toList)
        | _ => false)) = true :=
  ⟨processPart_functionCall_attaches,
   nsProcessPart_functionCall_attaches,
   processPart_thinking_attaches,
   endBlock_flushes_pendingSig,
   nsProcessPart_thinking_attaches,
   nsFlushThinking_emits,
   processPart_holds_token,
   nsProcessPart_holds_token,
   streamRun_no_thought,
   nsProcess_no_thought,
   rfl,
   by decide⟩

set_option maxRecDepth 40000 in
theorem c1_signature_routing_amended_witness :
    (({ blockType := .thinking, pendingSig := some "S".toList } : SState).blockType
        = BlockTy.thinking ∧
     ({ blockType := .thinking, pendingSig := some "S".toList } : SState).pendingSig
        = some "S".toList ∧
     (endBlock ({ blockType := .thinking, pendingSig := some "S".toList } : SState)).2 =
       [SEvent.blockDelta 0 (.signatureDelta "S".toList), SEvent.blockStop 0]) ∧
    (([{ text := some "x".toList }] : List GPart).all (fun p => !p.thought) = true ∧
     (streamRun 1 [{ text := some "x".toList }] "STOP".toList {}).all (fun e =>
        match e with
        | SEvent.blockStart _ (CBlock.thinkingB _ _) => false
        | _ => true) = true) ∧
    (([{ text := some "x".toList }] : List GPart).all (fun p => !p.thought) = true ∧
     (nsProcess [{ text := some "x".toList }] "STOP".toList).1.all (fun b =>
        match b with
        | NSBlock.thinkingB _ _ => false
        | _ => true) = true) :=
  ⟨⟨rfl, rfl,
    c1_signature_routing_amended.2.2.2.1
      { blockType := .thinking, pendingSig := some "S".toList } "S".toList rfl rfl⟩,
   ⟨by decide,
    c1_signature_routing_amended.2.2.2.2.2.2.2.2.1 1
      [{ text := some "x".toList }] "STOP".toList {} (by decide)⟩,
   ⟨by decide,
    c1_signature_routing_amended.2.2.2.2.2.2.2.2.2.1
      [{ text := some "x".toList }] "STOP".toList (by decide)⟩⟩

lemma splitBufferForPartialTag_hold (names : List Str) (raw e k : Str)
    (h : splitBufferForPartialTag names raw = (e, k)) (hk : k ≠ []) :
    isPossibleToolTagStart names k = true ∧ e ++ k = raw := by
  unfold splitBufferForPartialTag at h
  split at h
  · exact absurd (congrArg Prod.snd h).symm (by simpa using hk)
  · split at h
    · exact absurd (congrArg Prod.snd h).symm (by simpa using hk)
    · rename_i lastLt heq
      by_cases hp : isPossibleToolTagStart names (jsSliceFrom raw lastLt) = true
      · rw [if_pos hp] at h
        obtain ⟨he, hkk⟩ := Prod.mk.injEq .. |>.mp h
        subst he hkk
        refine ⟨hp, ?_⟩
        simp [jsSlice, jsSliceFrom]
      · rw [if_neg hp] at h
        exact absurd (congrArg Prod.snd h).symm (by simpa using hk)

set_option maxRecDepth 100000 in
/-- C2 (counterexample): `mkBad` is the complete bridge markup that
`buildMcpToolCallXml` writes for tool `mcp__t` and input
`\x7b"a":"</mcp__t><mcp__t>\x7b\x7d"\x7d` (the payload is embedded with no XML
escaping).  Feeding it split at a character boundary into two chunks yields
TWO parsed tool events, not exactly one — and the single-`pushText` feed also
yields two, because the scanner stops at the first close-tag text inside the
JSON string. -/
theorem c2_counterexample :
    mkBad = mcpMarkup "mcp__t".toList mkBadBody ∧
    countToolEvents (mcpFeed ["mcp__t".toList] [mkBad.take 10, mkBad.drop 10]) = 2 ∧
    countToolEvents (mcpFeed ["mcp__t".toList] [mkBad]) = 2 :=
  ⟨rfl, by decide, by decide⟩

set_option maxRecDepth 100000 in
/-- C2 (amended): the hold-back rule is as specified — whenever the tokenizer
splits its buffer and keeps a non-empty fragment, that fragment starts with
`<` and is a prefix of a declared open- or close-tag, and nothing of the
buffer is lost.  Split-robustness holds for markup whose payload does not
itself spell a declared tag: for the bridge markup of `mcp__t` with input
`\x7b"city":"Paris","n":2\x7d`, every two-chunk split at any character
boundary, and a three-chunk split, produce an event stream identical to the
single-`pushText` feed: exactly one tool event with that name and input. -/
theorem c2_split_invariance_amended :
    (∀ (names : List Str) (raw e k : Str),
      splitBufferForPartialTag names raw = (e, k) → k ≠ [] →
      isPossibleToolTagStart names k = true ∧ e ++ k = raw) ∧
    ((List.range (mkGood.length + 1)).all (fun j =>
        decide (mcpSig (mcpFeed ["mcp__t".toList] [mkGood.take j, mkGood.drop j]) =
          mcpSig (mcpFeed ["mcp__t".toList] [mkGood])))) = true ∧
    mcpSig (mcpFeed ["mcp__t".toList]
        [mkGood.take 3, (mkGood.drop 3).take 14, (mkGood.drop 3).drop 14]) =
      mcpSig (mcpFeed ["mcp__t".toList] [mkGood]) ∧
    mcpSig (mcpFeed ["mcp__t".toList] [mkGood]) =
      [("tool".toList, "mcp__t".toList ++ ':' :: mkGoodBody)] ∧
    countToolEvents (mcpFeed ["mcp__t".toList] [mkGood]) = 1 :=
  ⟨splitBufferForPartialTag_hold, by decide, by decide, by decide, by decide⟩

theorem c2_split_invariance_amended_witness :
    splitBufferForPartialTag (mcpNames ["mcp__t".toList]) "hello <mcp__".toList
      = ("hello ".toList, "<mcp__".toList) ∧
    ("<mcp__".toList : Str) ≠ [] ∧
    isPossibleToolTagStart (mcpNames ["mcp__t".toList]) "<mcp__".toList = true ∧
    "hello ".toList ++ "<mcp__".toList = "hello <mcp__".toList :=
  ⟨by decide, by decide,
   (c2_split_invariance_amended.1 (mcpNames ["mcp__t".toList]) "hello <mcp__".toList
      "hello ".toList "<mcp__".toList (by decide) (by decide)).1,
   (c2_split_invariance_amended.1 (mcpNames ["mcp__t".toList]) "hello <mcp__".toList
      "hello ".toList "<mcp__".toList (by decide) (by decide)).2⟩
